import Mathlib

/-!
# Cavern — verification of the voxel-cave extraction and streaming core

Shallow embedding of the Cavern repository (`Source/Cavern/Private/CaveChunk.cpp`,
`Source/Cavern/Private/CaveWorldSubsystem.cpp` and their headers) over exact
rational arithmetic, together with proofs and refutations of the specified
properties.  Machine floats of the source are modelled as `ℚ`; the engine's
`FVector` becomes `Vec3`; Unreal containers (`TArray`, `TMap`, `TSet`) become
lists and association lists in insertion order, which is the iteration order
the source relies on.
-/

namespace Cavern

/-- 3D vector with exact rational components, modelling `FVector`. -/
structure Vec3 where
  x : ℚ
  y : ℚ
  z : ℚ
deriving DecidableEq, Repr

instance : Add Vec3 := ⟨fun a b => ⟨a.x + b.x, a.y + b.y, a.z + b.z⟩⟩
instance : Sub Vec3 := ⟨fun a b => ⟨a.x - b.x, a.y - b.y, a.z - b.z⟩⟩
instance : Inhabited Vec3 := ⟨⟨0, 0, 0⟩⟩

/-- Componentwise scalar multiplication, modelling `FVector * float`. -/
def Vec3.smul (q : ℚ) (v : Vec3) : Vec3 := ⟨q * v.x, q * v.y, q * v.z⟩

@[simp] theorem Vec3.add_x (a b : Vec3) : (a + b).x = a.x + b.x := rfl
@[simp] theorem Vec3.add_y (a b : Vec3) : (a + b).y = a.y + b.y := rfl
@[simp] theorem Vec3.add_z (a b : Vec3) : (a + b).z = a.z + b.z := rfl
@[simp] theorem Vec3.sub_x (a b : Vec3) : (a - b).x = a.x - b.x := rfl
@[simp] theorem Vec3.sub_y (a b : Vec3) : (a - b).y = a.y - b.y := rfl
@[simp] theorem Vec3.sub_z (a b : Vec3) : (a - b).z = a.z - b.z := rfl
@[simp] theorem Vec3.smul_x (q : ℚ) (v : Vec3) : (Vec3.smul q v).x = q * v.x := rfl
@[simp] theorem Vec3.smul_y (q : ℚ) (v : Vec3) : (Vec3.smul q v).y = q * v.y := rfl
@[simp] theorem Vec3.smul_z (q : ℚ) (v : Vec3) : (Vec3.smul q v).z = q * v.z := rfl

@[simp] theorem Vec3.add_mk (a b c d e f : ℚ) :
    ((⟨a, b, c⟩ : Vec3) + ⟨d, e, f⟩) = ⟨a + d, b + e, c + f⟩ := rfl
@[simp] theorem Vec3.sub_mk (a b c d e f : ℚ) :
    ((⟨a, b, c⟩ : Vec3) - ⟨d, e, f⟩) = ⟨a - d, b - e, c - f⟩ := rfl
@[simp] theorem Vec3.smul_mk (q a b c : ℚ) :
    Vec3.smul q ⟨a, b, c⟩ = ⟨q * a, q * b, q * c⟩ := rfl

/-- `FVector::DistSquared`. -/
def distSq (a b : Vec3) : ℚ :=
  (a.x - b.x) ^ 2 + (a.y - b.y) ^ 2 + (a.z - b.z) ^ 2

/-- `FMath::RoundToInt` (floor of the argument plus one half). -/
def roundToInt (q : ℚ) : ℤ := ⌊q + 1 / 2⌋

/-- `FMath::FloorToInt`. -/
def floorToInt (q : ℚ) : ℤ := ⌊q⌋

/-! ## Edge-vertex interpolation (CaveChunk.cpp 772–789) -/

/-- The `0.00001f` tolerance of the interpolation guards. -/
def interpEps : ℚ := 1 / 100000

/-- `ACaveChunk::InterpolateVertex` (CaveChunk.cpp 772–789).  The local lambdas
`InterpolateVertexLocal` (548–588, async path) and `Interp` (903–910, cached
builder) implement identical logic with the captured threshold, so this single
definition embeds all three. -/
def interpolateVertex (thr : ℚ) (P1 P2 : Vec3) (V1 V2 : ℚ) : Vec3 :=
  if |thr - V1| < interpEps then P1
  else if |thr - V2| < interpEps then P2
  else if |V1 - V2| < interpEps then P1
  else Vec3.smul ((thr - V1) / (V2 - V1)) (P2 - P1) + P1

/-- Guard trace of `interpolateVertex`: `true` exactly when the function falls
through all three guards and evaluates the division `(thr - V1) / (V2 - V1)`. -/
def interpolateVertexTakesDivision (thr V1 V2 : ℚ) : Bool :=
  if |thr - V1| < interpEps then false
  else if |thr - V2| < interpEps then false
  else if |V1 - V2| < interpEps then false
  else true

/-! ## The density function (CaveChunk.cpp 301–341) and its in-builder copy -/

/-- `ACaveChunk::GenerateDensityAt` (CaveChunk.cpp 301–341).
`FMath::PerlinNoise3D` is engine code outside this repository and is abstracted
as the function parameter `perlin`; the definition is a pure function of
`perlin` and the position, which embeds the source's purity/determinism. -/
def generateDensityAt (perlin : Vec3 → ℚ) (p : Vec3) : ℚ :=
  let noisePos := Vec3.smul (2 / 1000) p
  let d1 := (0 : ℚ) + perlin (Vec3.smul (3 / 10) noisePos) * 1
  let d2 := d1 + perlin (Vec3.smul (8 / 10) noisePos) * (3 / 10)
  let d3 := -d2
  let d4 := d3 + 2 / 10
  let heightGradient := (p.z - 5000) / 20000
  let d5 := d4 + heightGradient * (2 / 10)
  let chamberNoise := perlin (Vec3.smul (5 / 100) noisePos)
  let d6 := if chamberNoise < -(1 / 10) then d5 - 3 / 2 else d5
  let tunnelNoise := perlin (Vec3.smul (1 / 10) noisePos)
  if tunnelNoise < -(2 / 10) then d6 - 8 / 10 else d6

/-- `DensityAtLocal`, the lambda duplicated inside
`BuildMeshFromDensityFieldCached` for gradient-normal computation
(CaveChunk.cpp 996–1012), embedded separately from `generateDensityAt` so the
two can be compared. -/
def densityAtLocal (perlin : Vec3 → ℚ) (p : Vec3) : ℚ :=
  let noisePos := Vec3.smul (2 / 1000) p
  let d1 := (0 : ℚ) + perlin (Vec3.smul (3 / 10) noisePos) * 1
  let d2 := d1 + perlin (Vec3.smul (8 / 10) noisePos) * (3 / 10)
  let d3 := -d2
  let d4 := d3 + 2 / 10
  let heightGradient := (p.z - 5000) / 20000
  let d5 := d4 + heightGradient * (2 / 10)
  let chamberNoise := perlin (Vec3.smul (5 / 100) noisePos)
  let d6 := if chamberNoise < -(1 / 10) then d5 - 3 / 2 else d5
  let tunnelNoise := perlin (Vec3.smul (1 / 10) noisePos)
  if tunnelNoise < -(2 / 10) then d6 - 8 / 10 else d6

/-- The density formula as the spec states it (§4.1): scale the position by
0.002, accumulate Perlin noise at relative frequencies 0.3 (weight 1.0) and
0.8 (weight 0.3), negate, add 0.2, add the vertical gradient term
`((z - 5000) / 20000) * 0.2`, subtract 1.5 when noise at factor 0.05 is below
-0.1 and 0.8 when noise at factor 0.1 is below -0.2.  Written from the spec's
words, to be compared with `generateDensityAt`. -/
def specDensityFormula (perlin : Vec3 → ℚ) (p : Vec3) : ℚ :=
  let n := Vec3.smul (2 / 1000) p
  let base := -(perlin (Vec3.smul (3 / 10) n) * 1 + perlin (Vec3.smul (8 / 10) n) * (3 / 10))
      + 2 / 10 + ((p.z - 5000) / 20000) * (2 / 10)
  let withChamber := if perlin (Vec3.smul (5 / 100) n) < -(1 / 10) then base - 3 / 2 else base
  if perlin (Vec3.smul (1 / 10) n) < -(2 / 10) then withChamber - 8 / 10 else withChamber

/-! ## Theorems for C3, C4, C9 -/

/-- C3 (counterexample): with threshold 0.1, densities `v1 = 0.1 - 1.8e-5` and
`v2 = 0.1 - 0.9e-5` are within 1e-5 of each other, yet the interpolation
returns the second endpoint `P2`, not the first endpoint `P1`: the
`|threshold - v2| < 1e-5` snap guard fires before the `|v1 - v2| < 1e-5`
guard. -/
theorem interpolateVertex_not_always_first_endpoint :
    |((1 : ℚ) / 10 - 18 / 1000000) - (1 / 10 - 9 / 1000000)| < interpEps ∧
    interpolateVertex (1 / 10) ⟨0, 0, 0⟩ ⟨1, 0, 0⟩
        (1 / 10 - 18 / 1000000) (1 / 10 - 9 / 1000000) = ⟨1, 0, 0⟩ ∧
    (⟨1, 0, 0⟩ : Vec3) ≠ ⟨0, 0, 0⟩ := by
  refine ⟨by norm_num [interpEps, abs_lt], ?_, by simp⟩
  rw [interpolateVertex, if_neg (by norm_num [interpEps, le_abs]),
    if_pos (by norm_num [interpEps, abs_lt])]

/-- C3 (amended): whenever the two corner densities are within 1e-5 of each
other, `interpolateVertex` returns one of the two endpoints (`P1`, or `P2`
when the `|threshold - v2|` snap guard fires first), and the division
`(threshold - v1) / (v2 - v1)` is never evaluated. -/
theorem interpolateVertex_close_densities (thr : ℚ) (P1 P2 : Vec3) (V1 V2 : ℚ)
    (h : |V1 - V2| < interpEps) :
    (interpolateVertex thr P1 P2 V1 V2 = P1 ∨ interpolateVertex thr P1 P2 V1 V2 = P2) ∧
    interpolateVertexTakesDivision thr V1 V2 = false := by
  rw [interpolateVertex, interpolateVertexTakesDivision]
  split_ifs <;> simp_all

/-- Witness for `interpolateVertex_close_densities` at threshold 0, endpoints
`(0,0,0)` and `(1,1,1)`, densities `1` and `1`. -/
theorem interpolateVertex_close_densities_witness :
    |(1 : ℚ) - 1| < interpEps ∧
    ((interpolateVertex 0 ⟨0, 0, 0⟩ ⟨1, 1, 1⟩ 1 1 = ⟨0, 0, 0⟩ ∨
      interpolateVertex 0 ⟨0, 0, 0⟩ ⟨1, 1, 1⟩ 1 1 = ⟨1, 1, 1⟩) ∧
     interpolateVertexTakesDivision 0 1 1 = false) :=
  ⟨by norm_num [interpEps],
   interpolateVertex_close_densities 0 ⟨0, 0, 0⟩ ⟨1, 1, 1⟩ 1 1 (by norm_num [interpEps])⟩

/-- C4: for every Perlin function and world position, `GenerateDensityAt`
computes exactly the spec's formula; being a plain function of its arguments,
it is pure and deterministic. -/
theorem generateDensityAt_eq_specFormula (perlin : Vec3 → ℚ) (p : Vec3) :
    generateDensityAt perlin p = specDensityFormula perlin p := by
  unfold generateDensityAt specDensityFormula
  dsimp only
  split_ifs <;> ring

/-- C9: the density function duplicated inside the cached mesh builder for
gradient normals agrees with the chunk's `GenerateDensityAt` at every world
position, for every Perlin function. -/
theorem densityAtLocal_eq_generateDensityAt (perlin : Vec3 → ℚ) (p : Vec3) :
    densityAtLocal perlin p = generateDensityAt perlin p := rfl

/-! ## Vertex deduplication (CaveChunk.cpp 1044–1081, 1185–1213, 1216–1368)

Triangles are represented as index triples (the source keeps a flat `int32`
array whose length is a multiple of 3); indices are `ℕ` (the source's indices
are non-negative `int32`s).  Out-of-range array reads, undefined behaviour in
C++, are modelled by `getD` with default values. -/

/-- First value stored under a key in an association list (`TMap::Find` with
insertion-ordered storage and no removals). -/
def findA {α β : Type} [DecidableEq α] (k : α) : List (α × β) → Option β
  | [] => none
  | e :: rest => if e.1 = k then some e.2 else findA k rest

/-- `FVertexKey` (CaveChunk.h 8–40): position quantized by `RoundToInt` of each
component divided by the grid size. -/
def fvertexKey (v : Vec3) (grid : ℚ) : ℤ × ℤ × ℤ :=
  (roundToInt (v.x / grid), roundToInt (v.y / grid), roundToInt (v.z / grid))

/-- A triangle whose three indices are pairwise distinct (the source's
degeneracy test in `RemapTriangleIndices`). -/
def degenFree (t : ℕ × ℕ × ℕ) : Bool :=
  t.1 != t.2.1 && t.2.1 != t.2.2 && t.1 != t.2.2

/-- The property C1 asserts of a triangle list: no triangle has two identical
vertex indices. -/
def NoDegenerateTriangles (ts : List (ℕ × ℕ × ℕ)) : Prop :=
  ∀ t ∈ ts, t.1 ≠ t.2.1 ∧ t.2.1 ≠ t.2.2 ∧ t.1 ≠ t.2.2

instance (ts : List (ℕ × ℕ × ℕ)) : Decidable (NoDegenerateTriangles ts) := by
  unfold NoDegenerateTriangles; infer_instance

/-- The degenerate-dropping filter of `RemapTriangleIndices`
(CaveChunk.cpp 1192–1206). -/
def cleanTriangles (ts : List (ℕ × ℕ × ℕ)) : List (ℕ × ℕ × ℕ) :=
  ts.filter degenFree

/-- `ACaveChunk::RemapTriangleIndices` (CaveChunk.cpp 1185–1213): remap every
index through the table, then drop triangles whose indices are not pairwise
distinct (the source only swaps in the cleaned array when it is shorter). -/
def remapTriangleIndices (remap : List ℕ) (ts : List (ℕ × ℕ × ℕ)) : List (ℕ × ℕ × ℕ) :=
  let m := ts.map fun t => (remap.getD t.1 0, remap.getD t.2.1 0, remap.getD t.2.2 0)
  if (cleanTriangles m).length < m.length then cleanTriangles m else m

/-- Accumulator of the synchronous hash-map deduplication pass. -/
structure DedupAcc where
  uniqueVertices : List Vec3
  keyMap : List ((ℤ × ℤ × ℤ) × ℕ)
  remapTable : List ℕ

/-- One iteration of the vertex loop of `DeduplicateVertices`
(CaveChunk.cpp 1058–1072). -/
def dedupStep (grid : ℚ) (acc : DedupAcc) (v : Vec3) : DedupAcc :=
  let key := fvertexKey v grid
  match findA key acc.keyMap with
  | some idx => { acc with remapTable := acc.remapTable ++ [idx] }
  | none =>
    let newIdx := acc.uniqueVertices.length
    { uniqueVertices := acc.uniqueVertices ++ [v],
      keyMap := acc.keyMap ++ [(key, newIdx)],
      remapTable := acc.remapTable ++ [newIdx] }

/-- `ACaveChunk::DeduplicateVertices` (CaveChunk.cpp 1044–1081), the
synchronous deduplication pass: quantized-key hash map, remap table, then
`RemapTriangleIndices`. -/
def deduplicateVertices (verts : List Vec3) (tris : List (ℕ × ℕ × ℕ)) (merge : ℚ) :
    List Vec3 × List (ℕ × ℕ × ℕ) :=
  if verts = [] ∨ tris = [] then (verts, tris)
  else
    let acc := verts.foldl (dedupStep merge) ⟨[], [], []⟩
    (acc.uniqueVertices, remapTriangleIndices acc.remapTable tris)

/-- `FQuantizedVertex` of `DeduplicateVerticesAsync_Sort`
(CaveChunk.cpp 1314–1320). -/
structure QuantizedVertex where
  qx : ℤ
  qy : ℤ
  qz : ℤ
  originalIndex : ℕ
deriving DecidableEq, Repr

/-- The sort comparator of `DeduplicateVerticesAsync_Sort`
(CaveChunk.cpp 1330–1336): lexicographic on `(qx, qy, qz, originalIndex)`. -/
def quantBefore (a b : QuantizedVertex) : Bool :=
  if a.qx != b.qx then decide (a.qx < b.qx)
  else if a.qy != b.qy then decide (a.qy < b.qy)
  else if a.qz != b.qz then decide (a.qz < b.qz)
  else decide (a.originalIndex < b.originalIndex)

/-- Accumulator of the run-collapsing loop of the sort-based pass. -/
structure SortAcc where
  unique : List Vec3
  remapPairs : List (ℕ × ℕ)
  lastKey : Option (ℤ × ℤ × ℤ)

/-- One element of the run-collapsing while-loop of
`DeduplicateVerticesAsync_Sort` (CaveChunk.cpp 1341–1360): a new quantized key
starts a new run whose representative is the run's first (lowest original
index) vertex; every member is remapped to the run's unique index. -/
def sortCollapseStep (verts : List Vec3) (acc : SortAcc) (q : QuantizedVertex) : SortAcc :=
  if acc.lastKey = some (q.qx, q.qy, q.qz) then
    { acc with remapPairs := acc.remapPairs ++ [(q.originalIndex, acc.unique.length - 1)] }
  else
    { unique := acc.unique ++ [verts.getD q.originalIndex default],
      remapPairs := acc.remapPairs ++ [(q.originalIndex, acc.unique.length)],
      lastKey := some (q.qx, q.qy, q.qz) }

/-- `DeduplicateVerticesAsync_Sort` (CaveChunk.cpp 1305–1368): quantize by
`RoundToInt(coordinate * (1 / mergeDistance))`, sort lexicographically,
collapse runs of equal keys, remap triangle indices.  Note: unlike the
synchronous path, no degenerate triangle is dropped. -/
def deduplicateVerticesAsyncSort (verts : List Vec3) (tris : List (ℕ × ℕ × ℕ)) (merge : ℚ) :
    List Vec3 × List (ℕ × ℕ × ℕ) :=
  if verts = [] ∨ tris = [] then (verts, tris)
  else
    let invGrid := if 0 < merge then 1 / merge else 1000000
    let q := (List.range verts.length).map fun i =>
      let v := verts.getD i default
      QuantizedVertex.mk (roundToInt (v.x * invGrid)) (roundToInt (v.y * invGrid))
        (roundToInt (v.z * invGrid)) i
    let sorted := List.insertionSort (fun a b => quantBefore a b = true) q
    let acc := sorted.foldl (sortCollapseStep verts) ⟨[], [], none⟩
    let remap := fun i => (findA i acc.remapPairs).getD 0
    (acc.unique, tris.map fun t => (remap t.1, remap t.2.1, remap t.2.2))

/-- Lowest 21 bits of an `int32` in two's complement (`& 0x1FFFFF`). -/
def mask21 (x : ℤ) : ℕ := (x % 2097152).toNat

/-- `FSpatialHash::GetHash` (CaveChunk.cpp 1231–1240): floor-quantized cell
coordinates packed into three 21-bit fields (disjoint bit fields, so the `|`
of the shifts is their sum). -/
def spatialHash (grid : ℚ) (p : Vec3) : ℕ :=
  mask21 (floorToInt (p.x / grid)) * 4398046511104 +
    mask21 (floorToInt (p.y / grid)) * 2097152 +
    mask21 (floorToInt (p.z / grid))

/-- `TMap::FindOrAdd(hash).Add(index)` on the bucket map
(CaveChunk.cpp 1242–1246). -/
def bucketAdd (buckets : List (ℕ × List ℕ)) (h : ℕ) (i : ℕ) : List (ℕ × List ℕ) :=
  match findA h buckets with
  | some _ => buckets.map fun p => if p.1 = h then (p.1, p.2 ++ [i]) else p
  | none => buckets ++ [(h, [i])]

/-- The 27 neighbour-cell offsets probed by `FindDuplicate`, in the source's
`DX`/`DY`/`DZ` loop order (CaveChunk.cpp 1251–1256). -/
def offsets3 : List (ℤ × ℤ × ℤ) :=
  [-1, 0, 1].flatMap fun dx => [-1, 0, 1].flatMap fun dy =>
    [-1, 0, 1].map fun dz => ((dx : ℤ), (dy : ℤ), (dz : ℤ))

/-- `FSpatialHash::FindDuplicate` (CaveChunk.cpp 1248–1273): first already
kept vertex within squared distance `grid * grid` of `pos`, scanning the 27
neighbour cells in loop order and each bucket in insertion order. -/
def findDuplicate (grid : ℚ) (buckets : List (ℕ × List ℕ)) (allVertices : List Vec3)
    (pos : Vec3) : Option ℕ :=
  offsets3.foldl
    (fun found d =>
      match found with
      | some _ => found
      | none =>
        let npos := pos + ⟨d.1 * grid, d.2.1 * grid, d.2.2 * grid⟩
        match findA (spatialHash grid npos) buckets with
        | none => none
        | some bucket =>
          bucket.find? fun idx => decide (distSq (allVertices.getD idx default) pos < grid * grid))
    none

/-- Accumulator of the spatial-hash deduplication pass. -/
structure HashAcc where
  buckets : List (ℕ × List ℕ)
  unique : List Vec3
  remapTable : List ℕ

/-- One iteration of the vertex loop of `DeduplicateVerticesAsync`
(CaveChunk.cpp 1281–1294). -/
def hashDedupStep (grid : ℚ) (acc : HashAcc) (v : Vec3) : HashAcc :=
  match findDuplicate grid acc.buckets acc.unique v with
  | some dup => { acc with remapTable := acc.remapTable ++ [dup] }
  | none =>
    let newIdx := acc.unique.length
    { buckets := bucketAdd acc.buckets (spatialHash grid v) newIdx,
      unique := acc.unique ++ [v],
      remapTable := acc.remapTable ++ [newIdx] }

/-- `DeduplicateVerticesAsync` (CaveChunk.cpp 1216–1302), the spatial-hash
asynchronous pass.  Note: unlike the synchronous path, no degenerate triangle
is dropped. -/
def deduplicateVerticesAsyncHash (verts : List Vec3) (tris : List (ℕ × ℕ × ℕ)) (merge : ℚ) :
    List Vec3 × List (ℕ × ℕ × ℕ) :=
  if verts = [] ∨ tris = [] then (verts, tris)
  else
    let acc := verts.foldl (hashDedupStep merge) ⟨[], [], []⟩
    (acc.unique,
     tris.map fun t =>
       (acc.remapTable.getD t.1 0, acc.remapTable.getD t.2.1 0, acc.remapTable.getD t.2.2 0))

/-! ### C1 theorems -/

/-- A fold whose step grows a measure by at most one grows it by at most the
list length. -/
theorem foldl_measure_le {α σ : Type} (f : σ → α → σ) (len : σ → ℕ)
    (h : ∀ s a, len (f s a) ≤ len s + 1) :
    ∀ (l : List α) (s : σ), len (l.foldl f s) ≤ len s + l.length := by
  intro l
  induction l with
  | nil => intro s; simp
  | cons a l ih =>
    intro s
    calc len ((a :: l).foldl f s) = len (l.foldl f (f s a)) := rfl
      _ ≤ len (f s a) + l.length := ih (f s a)
      _ ≤ len s + 1 + l.length := by have := h s a; omega
      _ = len s + (a :: l).length := by simp [List.length_cons]; omega

theorem cleanTriangles_noDegenerate (ts : List (ℕ × ℕ × ℕ)) :
    NoDegenerateTriangles (cleanTriangles ts) := by
  intro t ht
  have := List.of_mem_filter ht
  simpa [degenFree, Bool.and_eq_true, bne_iff_ne, and_assoc] using this

theorem remapTriangleIndices_noDegenerate (remap : List ℕ) (ts : List (ℕ × ℕ × ℕ)) :
    NoDegenerateTriangles (remapTriangleIndices remap ts) := by
  rw [remapTriangleIndices]
  set m := ts.map fun t => (remap.getD t.1 0, remap.getD t.2.1 0, remap.getD t.2.2 0) with hm
  split_ifs with h
  · exact cleanTriangles_noDegenerate m
  · have hle : (cleanTriangles m).length ≤ m.length := List.length_filter_le _ m
    have hlen : (List.filter degenFree m).length = m.length := by
      simp only [cleanTriangles] at hle h; omega
    have hall : ∀ t ∈ m, degenFree t = true := List.filter_length_eq_length.mp hlen
    intro t ht
    simpa [degenFree, Bool.and_eq_true, bne_iff_ne, and_assoc] using hall t ht

/-- C1 (counterexample): the asynchronous sort-based deduplication pass, run on
three coincident vertices forming one triangle with merge distance 1, merges
all three vertices but keeps the now-degenerate triangle `(0,0,0)` in its
output, so the claim's "no triangle with two identical vertex indices after
any deduplication pass" fails on the asynchronous paths. -/
theorem sortDedup_keeps_degenerate_triangle :
    (deduplicateVerticesAsyncSort [⟨0, 0, 0⟩, ⟨0, 0, 0⟩, ⟨0, 0, 0⟩] [(0, 1, 2)] 1).2
        = [(0, 0, 0)] ∧
    ¬ NoDegenerateTriangles
        (deduplicateVerticesAsyncSort [⟨0, 0, 0⟩, ⟨0, 0, 0⟩, ⟨0, 0, 0⟩] [(0, 1, 2)] 1).2 := by
  have h : (deduplicateVerticesAsyncSort [⟨0, 0, 0⟩, ⟨0, 0, 0⟩, ⟨0, 0, 0⟩] [(0, 1, 2)] 1).2
      = [(0, 0, 0)] := by
    rw [deduplicateVerticesAsyncSort, if_neg (by simp)]
    dsimp only
    rw [if_pos (show (0 : ℚ) < 1 by norm_num)]
    norm_num [List.range_succ, roundToInt]
    simp [List.insertionSort, List.orderedInsert, quantBefore]
    simp [sortCollapseStep]
    simp [findA]
  refine ⟨h, ?_⟩
  rw [h]
  intro hctr
  have := hctr (0, 0, 0) (by simp)
  simp at this

/-- The hash-map pass keeps at most one unique vertex per input vertex. -/
theorem dedupAcc_unique_le (merge : ℚ) (l : List Vec3) (s : DedupAcc) :
    (l.foldl (dedupStep merge) s).uniqueVertices.length ≤ s.uniqueVertices.length + l.length :=
  foldl_measure_le (dedupStep merge) (fun a => a.uniqueVertices.length)
    (fun s a => by
      cases hfa : findA (fvertexKey a merge) s.keyMap <;> simp [dedupStep, hfa]) l s

/-- The sort-based run collapse keeps at most one unique vertex per run
element. -/
theorem sortAcc_unique_le (verts : List Vec3) (l : List QuantizedVertex) (s : SortAcc) :
    (l.foldl (sortCollapseStep verts) s).unique.length ≤ s.unique.length + l.length :=
  foldl_measure_le (sortCollapseStep verts) (fun a => a.unique.length)
    (fun s a => by simp only [sortCollapseStep]; split_ifs <;> simp) l s

/-- The spatial-hash pass keeps at most one unique vertex per input vertex. -/
theorem hashAcc_unique_le (merge : ℚ) (l : List Vec3) (s : HashAcc) :
    (l.foldl (hashDedupStep merge) s).unique.length ≤ s.unique.length + l.length :=
  foldl_measure_le (hashDedupStep merge) (fun a => a.unique.length)
    (fun s a => by
      delta hashDedupStep
      generalize findDuplicate merge s.buckets s.unique a = r
      rcases r with _ | d <;> simp) l s

/-- C1 (amended): the synchronous deduplication pass (`DeduplicateVertices`
followed by `RemapTriangleIndices`) leaves no triangle with two identical
vertex indices, and every pass — synchronous hash-map, asynchronous
spatial-hash, asynchronous sort-based — outputs at most as many vertices as it
was given; the asynchronous passes only remap indices and do not drop
degenerate triangles. -/
theorem dedup_sync_noDegenerate_and_all_counts_le (verts : List Vec3)
    (tris : List (ℕ × ℕ × ℕ)) (merge : ℚ) (hv : verts ≠ []) :
    NoDegenerateTriangles (deduplicateVertices verts tris merge).2 ∧
    (deduplicateVertices verts tris merge).1.length ≤ verts.length ∧
    (deduplicateVerticesAsyncSort verts tris merge).1.length ≤ verts.length ∧
    (deduplicateVerticesAsyncHash verts tris merge).1.length ≤ verts.length := by
  refine ⟨?_, ?_, ?_, ?_⟩
  · rw [deduplicateVertices]
    split_ifs with h
    · rcases h with h | h
      · exact absurd h hv
      · subst h; intro t ht; simp at ht
    · exact remapTriangleIndices_noDegenerate _ tris
  · rw [deduplicateVertices]
    split_ifs with h
    · simp
    · dsimp only
      refine le_trans (dedupAcc_unique_le merge verts ⟨[], [], []⟩) ?_
      simp
  · rw [deduplicateVerticesAsyncSort]
    split_ifs with h hm
    · simp
    · dsimp only
      refine le_trans (sortAcc_unique_le verts _ ⟨[], [], none⟩) ?_
      simp [List.length_insertionSort]
    · dsimp only
      refine le_trans (sortAcc_unique_le verts _ ⟨[], [], none⟩) ?_
      simp [List.length_insertionSort]
  · rw [deduplicateVerticesAsyncHash]
    split_ifs with h
    · simp
    · dsimp only
      refine le_trans (hashAcc_unique_le merge verts ⟨[], [], []⟩) ?_
      simp

/-- Witness for `dedup_sync_noDegenerate_and_all_counts_le` on a one-vertex,
one-triangle mesh with merge distance 1. -/
theorem dedup_sync_noDegenerate_and_all_counts_le_witness :
    ([(⟨0, 0, 0⟩ : Vec3)] ≠ []) ∧
    (NoDegenerateTriangles (deduplicateVertices [⟨0, 0, 0⟩] [(0, 0, 0)] 1).2 ∧
     (deduplicateVertices [⟨0, 0, 0⟩] [(0, 0, 0)] 1).1.length ≤ 1 ∧
     (deduplicateVerticesAsyncSort [⟨0, 0, 0⟩] [(0, 0, 0)] 1).1.length ≤ 1 ∧
     (deduplicateVerticesAsyncHash [⟨0, 0, 0⟩] [(0, 0, 0)] 1).1.length ≤ 1) :=
  ⟨by simp, dedup_sync_noDegenerate_and_all_counts_le [⟨0, 0, 0⟩] [(0, 0, 0)] 1 (by simp)⟩

/-! ## Chunk generation entry points (CaveChunk.cpp 82–205 and 514–706)

Only the state the validation path touches is modelled per field; the
post-validation pipeline (clear, density build, extraction, dedup, commit) is
abstracted as the function `rest`, which the claim's rejected inputs never
reach — the theorems below hold for every `rest`. -/

/-- The fields of `ACaveChunk` read or written by `GenerateMesh` /
`GenerateMeshAsync` up to and including chunk-size validation
(CaveChunk.h 119–137). -/
structure ChunkState where
  hasProceduralMesh : Bool
  bIsGenerating : Bool
  chunkCoord : ℤ × ℤ × ℤ
  voxelSize : ℚ
  chunkSize : ℤ
  vertices : List Vec3
  triangles : List (ℕ × ℕ × ℕ)
  normals : List Vec3
  uvs : List (ℚ × ℚ)
  densityField : List ℚ
deriving DecidableEq

/-- `ACaveChunk::GenerateMesh` (CaveChunk.cpp 82–205): null-mesh guard,
re-entrancy guard, then the flag is raised and the coordinate/voxel-size/
chunk-size fields assigned *before* the size validation; an out-of-range size
lowers the flag and returns; otherwise the pipeline `rest` runs. -/
def generateMesh (rest : ChunkState → ChunkState) (c : ChunkState)
    (coord : ℤ × ℤ × ℤ) (vox : ℚ) (size : ℤ) : ChunkState :=
  if c.hasProceduralMesh = false then c
  else if c.bIsGenerating then c
  else
    let c1 := { c with bIsGenerating := true, chunkCoord := coord,
                       voxelSize := vox, chunkSize := size }
    if size ≤ 0 ∨ 128 < size then { c1 with bIsGenerating := false }
    else rest c1

/-- `ACaveChunk::GenerateMeshAsync` (CaveChunk.cpp 514–706): same guard
structure (`!ProceduralMesh || bIsGenerating` in one test), same
assign-then-validate order. -/
def generateMeshAsync (rest : ChunkState → ChunkState) (c : ChunkState)
    (coord : ℤ × ℤ × ℤ) (vox : ℚ) (size : ℤ) : ChunkState :=
  if c.hasProceduralMesh = false ∨ c.bIsGenerating then c
  else
    let c1 := { c with bIsGenerating := true, chunkCoord := coord,
                       voxelSize := vox, chunkSize := size }
    if size ≤ 0 ∨ 128 < size then { c1 with bIsGenerating := false }
    else rest c1

/-- An idle chunk with the subsystem's default configuration (chunk size 64,
voxel size 50). -/
def idleChunk : ChunkState :=
  { hasProceduralMesh := true, bIsGenerating := false, chunkCoord := (0, 0, 0),
    voxelSize := 50, chunkSize := 64, vertices := [], triangles := [],
    normals := [], uvs := [], densityField := [] }

/-- C2 (counterexample): requesting generation with the invalid chunk size 0
on an idle chunk does *not* leave the chunk's state unchanged — the chunk-size
field is overwritten with 0 (and the coordinate and voxel-size fields with the
arguments), even though generation is rejected. -/
theorem generateMesh_invalid_size_mutates_fields :
    generateMesh id idleChunk (1, 2, 3) 50 0 ≠ idleChunk ∧
    (generateMesh id idleChunk (1, 2, 3) 50 0).chunkSize = 0 ∧
    idleChunk.chunkSize = 64 := by
  refine ⟨?_, ?_, rfl⟩ <;> simp [generateMesh, idleChunk]

/-- C2 (amended): for every chunk size outside [1, 128], both `GenerateMesh`
and `GenerateMeshAsync` reject the request before any generation work — for
*every* post-validation pipeline `rest`, the result does not depend on `rest`;
the mesh buffers and density field are untouched and the generation flag is
false when the call returns — but the chunk's coordinate, voxel-size and
chunk-size fields are overwritten with the arguments. -/
theorem generateMesh_invalid_size_rejected (rest rest' : ChunkState → ChunkState)
    (c : ChunkState) (coord : ℤ × ℤ × ℤ) (vox : ℚ) (size : ℤ)
    (hp : c.hasProceduralMesh = true) (hg : c.bIsGenerating = false)
    (hs : size ≤ 0 ∨ 128 < size) :
    generateMesh rest c coord vox size =
      { c with chunkCoord := coord, voxelSize := vox, chunkSize := size,
               bIsGenerating := false } ∧
    generateMeshAsync rest' c coord vox size =
      { c with chunkCoord := coord, voxelSize := vox, chunkSize := size,
               bIsGenerating := false } := by
  constructor
  · rw [generateMesh]
    simp [hp, hg, hs]
  · rw [generateMeshAsync]
    simp [hp, hg, hs]

/-- Witness for `generateMesh_invalid_size_rejected` on the idle chunk at
chunk size 129. -/
theorem generateMesh_invalid_size_rejected_witness :
    idleChunk.hasProceduralMesh = true ∧ idleChunk.bIsGenerating = false ∧
    ((129 : ℤ) ≤ 0 ∨ (128 : ℤ) < 129) ∧
    (generateMesh id idleChunk (0, 0, 0) 50 129 =
      { idleChunk with chunkCoord := (0, 0, 0), voxelSize := 50, chunkSize := 129,
                       bIsGenerating := false } ∧
     generateMeshAsync id idleChunk (0, 0, 0) 50 129 =
      { idleChunk with chunkCoord := (0, 0, 0), voxelSize := 50, chunkSize := 129,
                       bIsGenerating := false }) :=
  ⟨rfl, rfl, by norm_num,
   generateMesh_invalid_size_rejected id id idleChunk (0, 0, 0) 50 129 rfl rfl (by norm_num)⟩

/-! ## Chunk-centre and priority (CaveWorldSubsystem.cpp 461–476, 189–203) -/

/-- `UCaveWorldSubsystem::ChunkToWorldPosition` (CaveWorldSubsystem.cpp
199–203): chunk coordinate times chunk world size. -/
def chunkToWorldPosition (chunkSize : ℤ) (voxelSize : ℚ) (c : ℤ × ℤ × ℤ) : Vec3 :=
  let s := (chunkSize : ℚ) * voxelSize
  ⟨(c.1 : ℚ) * s, (c.2.1 : ℚ) * s, (c.2.2 : ℚ) * s⟩

/-- The "chunk centre" computed by `CalculateChunkPriority`
(CaveWorldSubsystem.cpp 469–470) and `UpdateChunkLODs` (442–443): the chunk's
world origin plus `FVector(ChunkSize * VoxelSize * 50.0f)` on every axis. -/
def codeChunkCenter (chunkSize : ℤ) (voxelSize : ℚ) (c : ℤ × ℤ × ℤ) : Vec3 :=
  chunkToWorldPosition chunkSize voxelSize c +
    ⟨(chunkSize : ℚ) * voxelSize * 50, (chunkSize : ℚ) * voxelSize * 50,
     (chunkSize : ℚ) * voxelSize * 50⟩

/-- Modelled from the spec: "the center of that chunk's world-space region" —
the chunk's world origin plus *half* the chunk world size on each axis.  This
is also what the repository's own debug draw computes
(`ChunkWorldSize * 0.5f`, CaveWorldSubsystem.cpp 492). -/
def chunkRegionCenter (chunkSize : ℤ) (voxelSize : ℚ) (c : ℤ × ℤ × ℤ) : Vec3 :=
  chunkToWorldPosition chunkSize voxelSize c +
    ⟨(chunkSize : ℚ) * voxelSize * (1 / 2), (chunkSize : ℚ) * voxelSize * (1 / 2),
     (chunkSize : ℚ) * voxelSize * (1 / 2)⟩

/-- C6: with the subsystem's default configuration (chunk size 64, voxel size
50), the "chunk centre" that `CalculateChunkPriority` feeds into
`10000 / (distance + 1)` for chunk (0,0,0) is (160000, 160000, 160000) — 50
chunk widths away — while the centre of the chunk's world-space region is
(1600, 1600, 1600).  For a viewer standing at the true centre the code's
distance argument is strictly positive where the claim's is 0, so (the map
`d ↦ 10000 / (d + 1)` being injective on non-negative reals) the enqueued
priority differs from the claimed `10000 / (distance(viewer, chunkCenter) + 1)`. -/
theorem calculateChunkPriority_center_is_wrong :
    codeChunkCenter 64 50 (0, 0, 0) = ⟨160000, 160000, 160000⟩ ∧
    chunkRegionCenter 64 50 (0, 0, 0) = ⟨1600, 1600, 1600⟩ ∧
    codeChunkCenter 64 50 (0, 0, 0) ≠ chunkRegionCenter 64 50 (0, 0, 0) ∧
    distSq (chunkRegionCenter 64 50 (0, 0, 0)) (chunkRegionCenter 64 50 (0, 0, 0)) = 0 ∧
    0 < distSq (chunkRegionCenter 64 50 (0, 0, 0)) (codeChunkCenter 64 50 (0, 0, 0)) := by
  refine ⟨?_, ?_, ?_, ?_, ?_⟩ <;>
    norm_num [codeChunkCenter, chunkRegionCenter, chunkToWorldPosition, distSq, Vec3.mk.injEq]

/-! ## The chunk streaming manager (CaveWorldSubsystem.cpp)

`TMap`/`TSet` become association lists / lists in insertion order; chunk
actors are identified by natural-number ids whose `bIsGenerating` flag lives
in `actorGenerating`; `Destroy`ed actors are collected in `destroyedActors`.
`CalculateChunkPriority` returns `10000 / (FVector::Dist(...) + 1)`, whose
square root leaves ℚ; since no queue/pool/lifecycle property below depends on
the numeric priority values, the machine is parameterized over the priority
function `prio` (C6 settles the priority formula itself). -/

/-- `FChunkData` (CaveWorldSubsystem.h 14–39). -/
structure ChunkData where
  coordinate : ℤ × ℤ × ℤ
  bIsGenerated : Bool
  bNeedsRebuild : Bool
  chunkActor : Option ℕ
  generationTime : ℚ
  lastAccessTime : ℚ
  currentLOD : ℤ
deriving DecidableEq, Repr

/-- The default-constructed `FChunkData` produced by `TMap::FindOrAdd`. -/
def ChunkData.defaultData : ChunkData :=
  { coordinate := (0, 0, 0), bIsGenerated := false, bNeedsRebuild := false,
    chunkActor := none, generationTime := 0, lastAccessTime := 0, currentLOD := 0 }

/-- `FChunkGenerationTask` (CaveWorldSubsystem.h 41–54). -/
structure GenTask where
  coordinate : ℤ × ℤ × ℤ
  priority : ℚ
deriving DecidableEq, Repr

/-- The state of `UCaveWorldSubsystem` (CaveWorldSubsystem.h 104–183) plus the
`bIsGenerating` flags of the chunk actors it manages. -/
structure WorldState where
  activeChunks : List ((ℤ × ℤ × ℤ) × ChunkData)
  chunkPool : List ℕ
  queue : List GenTask
  chunksInQueue : List (ℤ × ℤ × ℤ)
  lastPlayerPosition : Option Vec3
  actorGenerating : List (ℕ × Bool)
  nextActorId : ℕ
  destroyedActors : List ℕ
  timeSeconds : ℚ
  chunkSize : ℤ
  voxelSize : ℚ
  viewDistance : ℤ
  chunksPerFrame : ℕ
  useAsyncGeneration : Bool
deriving Repr

/-- `MaxPoolSize` (CaveWorldSubsystem.h 180). -/
def maxPoolSize : ℕ := 50

/-- The coordinates currently in the generation queue. -/
def queueCoords (s : WorldState) : List (ℤ × ℤ × ℤ) := s.queue.map GenTask.coordinate

/-- `ACaveChunk::IsGenerating` of the actor with id `a` (false for an unknown
id, matching a fresh actor's constructor). -/
def actorIsGenerating (s : WorldState) (a : ℕ) : Bool :=
  (findA a s.actorGenerating).getD false

/-- Writing the actor's `bIsGenerating` flag (set on dispatch, cleared by the
game-thread completion continuation, CaveChunk.cpp 703). -/
def setActorGenerating (a : ℕ) (b : Bool) (s : WorldState) : WorldState :=
  { s with actorGenerating := s.actorGenerating.map fun e => if e.1 = a then (a, b) else e }

/-- `TMap::Remove`. -/
def removeKey {β : Type} (c : ℤ × ℤ × ℤ) (l : List ((ℤ × ℤ × ℤ) × β)) :
    List ((ℤ × ℤ × ℤ) × β) :=
  l.filter fun e => !(e.1 = c : Bool)

/-- `TMap::FindOrAdd` followed by assignment of the data. -/
def upsert (c : ℤ × ℤ × ℤ) (d : ChunkData) (l : List ((ℤ × ℤ × ℤ) × ChunkData)) :
    List ((ℤ × ℤ × ℤ) × ChunkData) :=
  match findA c l with
  | some _ => l.map fun e => if e.1 = c then (c, d) else e
  | none => l ++ [(c, d)]

/-- `UCaveWorldSubsystem::GenerateChunkAt` (CaveWorldSubsystem.cpp 79–106):
reject a coordinate that is active or queued, otherwise append a task with the
computed priority and re-sort the queue descending by priority. -/
def generateChunkAt (prio : Option Vec3 → (ℤ × ℤ × ℤ) → ℚ) (s : WorldState)
    (c : ℤ × ℤ × ℤ) : WorldState :=
  if (findA c s.activeChunks).isSome then s
  else if c ∈ s.chunksInQueue then s
  else
    let task : GenTask := ⟨c, prio s.lastPlayerPosition c⟩
    { s with
      queue := List.insertionSort (fun A B : GenTask => B.priority ≤ A.priority)
        (s.queue ++ [task]),
      chunksInQueue := s.chunksInQueue ++ [c] }

/-- `UCaveWorldSubsystem::ReturnChunkToPool` (CaveWorldSubsystem.cpp 341–369):
never pools or destroys an actor whose generation flag is set; pools up to
`MaxPoolSize`, destroys beyond it. -/
def returnChunkToPool (a : ℕ) (s : WorldState) : WorldState :=
  if actorIsGenerating s a then s
  else if s.chunkPool.length < maxPoolSize then { s with chunkPool := s.chunkPool ++ [a] }
  else { s with destroyedActors := s.destroyedActors ++ [a] }

/-- The body of the eviction loop of `CleanupDistantChunks`
(CaveWorldSubsystem.cpp 385–402) for one coordinate: a chunk whose actor is
generating is skipped (`continue`); otherwise its actor is returned to the
pool and the entry removed from the active map. -/
def evictChunk (st : WorldState) (c : ℤ × ℤ × ℤ) : WorldState :=
  match findA c st.activeChunks with
  | none => st
  | some d =>
    match d.chunkActor with
    | some a =>
      if actorIsGenerating st a then st
      else
        let st1 := returnChunkToPool a st
        { st1 with activeChunks := removeKey c st1.activeChunks }
    | none => { st with activeChunks := removeKey c st.activeChunks }

/-- `UCaveWorldSubsystem::CleanupDistantChunks` (CaveWorldSubsystem.cpp
371–403): evict every active coordinate not in the required set, with the
to-remove list computed up front from the active map. -/
def cleanupDistantChunks (required : List (ℤ × ℤ × ℤ)) (s : WorldState) : WorldState :=
  ((s.activeChunks.map Prod.fst).filter fun c => decide (c ∉ required)).foldl evictChunk s

/-- `UCaveWorldSubsystem::GetOrCreateChunkActor` (CaveWorldSubsystem.cpp
297–339): pop the last pooled actor, else spawn a fresh one (generation flag
initialized false by the `ACaveChunk` constructor). -/
def getOrCreateChunkActor (s : WorldState) : ℕ × WorldState :=
  match s.chunkPool.getLast? with
  | some a => (a, { s with chunkPool := s.chunkPool.dropLast })
  | none =>
    (s.nextActorId,
     { s with nextActorId := s.nextActorId + 1,
              actorGenerating := s.actorGenerating ++ [(s.nextActorId, false)] })

/-- The dispatch of generation work in `ProcessGenerationQueue`
(CaveWorldSubsystem.cpp 266–273): the asynchronous path leaves the actor's
generation flag raised until the game-thread continuation clears it; the
synchronous path runs to completion inside the call, so the flag is false
again on return. -/
def dispatchGeneration (a : ℕ) (s : WorldState) : WorldState :=
  if s.useAsyncGeneration then setActorGenerating a true s else s

/-- `UCaveWorldSubsystem::OnChunkGenerated` (CaveWorldSubsystem.cpp 280–295). -/
def onChunkGenerated (c : ℤ × ℤ × ℤ) (a : ℕ) (s : WorldState) : WorldState :=
  let old := (findA c s.activeChunks).getD ChunkData.defaultData
  let d := { old with coordinate := c, bIsGenerated := true, chunkActor := some a,
                      generationTime := s.timeSeconds, lastAccessTime := s.timeSeconds }
  { s with activeChunks := upsert c d s.activeChunks }

/-- The `while` loop of `ProcessGenerationQueue` (CaveWorldSubsystem.cpp
230–277), with fuel: each iteration pops exactly one task, so fuel equal to
the initial queue length makes the fuelled recursion coincide with the loop. -/
def processLoop : ℕ → WorldState → ℕ → WorldState
  | 0, s, _ => s
  | fuel + 1, s, processed =>
    if s.chunksPerFrame ≤ processed then s
    else
      match s.queue with
      | [] => s
      | task :: rest =>
        let s1 := { s with queue := rest,
                           chunksInQueue := s.chunksInQueue.filter
                             fun c => !(c = task.coordinate : Bool) }
        if (findA task.coordinate s1.activeChunks).isSome then
          processLoop fuel s1 processed
        else
          let p := getOrCreateChunkActor s1
          let s2 := dispatchGeneration p.1 p.2
          let s3 := onChunkGenerated task.coordinate p.1 s2
          processLoop fuel s3 (processed + 1)

/-- `UCaveWorldSubsystem::ProcessGenerationQueue` (CaveWorldSubsystem.cpp
217–278). -/
def processGenerationQueue (s : WorldState) : WorldState :=
  if s.queue = [] then s else processLoop s.queue.length s 0

/-- `UCaveWorldSubsystem::WorldToChunkCoordinate` (CaveWorldSubsystem.cpp
189–197). -/
def worldToChunkCoordinate (chunkSize : ℤ) (voxelSize : ℚ) (p : Vec3) : ℤ × ℤ × ℤ :=
  let s := (chunkSize : ℚ) * voxelSize
  (floorToInt (p.x / s), floorToInt (p.y / s), floorToInt (p.z / s))

/-- The integers from `a` to `b` inclusive (a C++ `for` from `a` to `b`). -/
def intRange (a b : ℤ) : List ℤ := (List.range (b - a + 1).toNat).map fun i => a + (i : ℤ)

/-- `UCaveWorldSubsystem::UpdateChunkLODs` (CaveWorldSubsystem.cpp 428–459):
band thresholds at 5000/10000/20000 world units of distance to the (offset,
see `codeChunkCenter`) chunk centre; `FVector::Distance(p,c) > t` is embedded
as `t^2 < distSq p c`, exactly equivalent for the non-negative thresholds. -/
def updateChunkLODs (s : WorldState) : WorldState :=
  match s.lastPlayerPosition with
  | none => s
  | some p =>
    { s with
      activeChunks := s.activeChunks.map fun e =>
        match e.2.chunkActor with
        | none => e
        | some _ =>
          let d2 := distSq p (codeChunkCenter s.chunkSize s.voxelSize e.2.coordinate)
          let lod : ℤ :=
            if 400000000 < d2 then 3 else if 100000000 < d2 then 2
            else if 25000000 < d2 then 1 else 0
          if e.2.currentLOD ≠ lod then (e.1, { e.2 with currentLOD := lod }) else e }

/-- `UCaveWorldSubsystem::UpdateAroundPlayer` (CaveWorldSubsystem.cpp
108–145): record the viewer position, request every chunk in the clamped
spherical neighbourhood (`sqrt(X²+Y²+Z²) ≤ ViewDistance` embedded as
`X²+Y²+Z² ≤ ViewDistance²`, exactly equivalent since both sides are
non-negative whenever the loops run at all), then clean up the rest. -/
def updateAroundPlayer (prio : Option Vec3 → (ℤ × ℤ × ℤ) → ℚ) (p : Vec3)
    (s : WorldState) : WorldState :=
  let s0 := { s with lastPlayerPosition := some p }
  let pc := worldToChunkCoordinate s.chunkSize s.voxelSize p
  let offsets := (intRange (-s.viewDistance) s.viewDistance).flatMap fun X =>
    (intRange (-s.viewDistance) s.viewDistance).flatMap fun Y =>
      (intRange (-2) 2).map fun Z => (X, Y, Z)
  let inRange := offsets.filter fun o =>
    decide (o.1 ^ 2 + o.2.1 ^ 2 + o.2.2 ^ 2 ≤ s.viewDistance ^ 2)
  let required := inRange.map fun o => (pc.1 + o.1, pc.2.1 + o.2.1, pc.2.2 + o.2.2)
  let s1 := required.foldl
    (fun st c => if (findA c st.activeChunks).isSome then st else generateChunkAt prio st c) s0
  cleanupDistantChunks required s1

/-- `UCaveWorldSubsystem::TickUpdate` (CaveWorldSubsystem.cpp 205–215). -/
def tickUpdate (s : WorldState) : WorldState :=
  updateChunkLODs (processGenerationQueue s)

/-- `UCaveWorldSubsystem::CleanupAllChunks` (CaveWorldSubsystem.cpp 405–426):
destroy every active and pooled actor. -/
def cleanupAllChunks (s : WorldState) : WorldState :=
  { s with activeChunks := [], chunkPool := [],
           destroyedActors := s.destroyedActors ++
             (s.activeChunks.filterMap fun e => e.2.chunkActor) ++ s.chunkPool }

/-- `UCaveWorldSubsystem::RegenerateAllChunks` (CaveWorldSubsystem.cpp
536–552). -/
def regenerateAllChunks (prio : Option Vec3 → (ℤ × ℤ × ℤ) → ℚ) (s : WorldState) :
    WorldState :=
  let s1 := cleanupAllChunks s
  let s2 := { s1 with queue := [], chunksInQueue := [] }
  match s2.lastPlayerPosition with
  | some p => updateAroundPlayer prio p s2
  | none => s2

/-- `UCaveWorldSubsystem::ModifyTerrainAt` (CaveWorldSubsystem.cpp 147–179):
mark the affected active chunks dirty (`ACaveChunk::ModifyTerrain` itself is a
logged no-op).  The affected coordinate cube is abstracted as the list
`affected`; only `bNeedsRebuild` of active entries with an actor changes. -/
def modifyTerrainAt (affected : List (ℤ × ℤ × ℤ)) (s : WorldState) : WorldState :=
  { s with
    activeChunks := s.activeChunks.map fun e =>
      if e.1 ∈ affected ∧ e.2.chunkActor.isSome then
        (e.1, { e.2 with bNeedsRebuild := true })
      else e }

/-- `UCaveWorldSubsystem::Initialize` (CaveWorldSubsystem.cpp 32–55) on the
constructor-defaulted subsystem (13–30), with configurable tunables. -/
def initState (chunkSize : ℤ) (voxelSize : ℚ) (viewDistance : ℤ) (chunksPerFrame : ℕ)
    (useAsync : Bool) (time : ℚ) : WorldState :=
  { activeChunks := [], chunkPool := [], queue := [], chunksInQueue := [],
    lastPlayerPosition := none, actorGenerating := [], nextActorId := 0,
    destroyedActors := [], timeSeconds := time, chunkSize := chunkSize,
    voxelSize := voxelSize, viewDistance := viewDistance,
    chunksPerFrame := chunksPerFrame, useAsyncGeneration := useAsync }

/-- `UCaveWorldSubsystem::Deinitialize` (CaveWorldSubsystem.cpp 57–77). -/
def deinitializeState (s : WorldState) : WorldState :=
  let s1 := cleanupAllChunks s
  { s1 with queue := [], chunksInQueue := [] }

/-- `UCaveWorldSubsystem::GetChunkStatistics` (CaveWorldSubsystem.cpp
522–529): `(total, active, pooled, queued)`. -/
def getChunkStatistics (s : WorldState) : ℕ × ℕ × ℕ × ℕ :=
  (s.activeChunks.length + s.chunkPool.length, s.activeChunks.length,
   s.chunkPool.length, s.queue.length)

/-- The manager states reachable through the subsystem's entry points, for a
given priority function. -/
inductive Reachable (prio : Option Vec3 → (ℤ × ℤ × ℤ) → ℚ) : WorldState → Prop
  | init (chunkSize : ℤ) (voxelSize : ℚ) (viewDistance : ℤ) (chunksPerFrame : ℕ)
      (useAsync : Bool) (time : ℚ) :
      Reachable prio (initState chunkSize voxelSize viewDistance chunksPerFrame useAsync time)
  | genAt {s} (c : ℤ × ℤ × ℤ) : Reachable prio s → Reachable prio (generateChunkAt prio s c)
  | update {s} (p : Vec3) : Reachable prio s → Reachable prio (updateAroundPlayer prio p s)
  | tick {s} : Reachable prio s → Reachable prio (tickUpdate s)
  | cleanup {s} (required : List (ℤ × ℤ × ℤ)) : Reachable prio s →
      Reachable prio (cleanupDistantChunks required s)
  | pool {s} (a : ℕ) : Reachable prio s → Reachable prio (returnChunkToPool a s)
  | regen {s} : Reachable prio s → Reachable prio (regenerateAllChunks prio s)
  | deinit {s} : Reachable prio s → Reachable prio (deinitializeState s)
  | finish {s} (a : ℕ) : Reachable prio s → Reachable prio (setActorGenerating a false s)
  | modify {s} (affected : List (ℤ × ℤ × ℤ)) : Reachable prio s →
      Reachable prio (modifyTerrainAt affected s)

/-- C10: the statistics query reports total = active + pooled, and the active,
pooled and queued counts are the sizes of the active-chunk map, the pool and
the generation queue. -/
theorem getChunkStatistics_consistent (s : WorldState) :
    (getChunkStatistics s).1 = (getChunkStatistics s).2.1 + (getChunkStatistics s).2.2.1 ∧
    (getChunkStatistics s).2.1 = s.activeChunks.length ∧
    (getChunkStatistics s).2.2.1 = s.chunkPool.length ∧
    (getChunkStatistics s).2.2.2 = s.queue.length := by
  simp [getChunkStatistics]

/-! ### C7: at most one queued task per coordinate -/

/-- The queue/`ChunksInQueue` coupling `GenerateChunkAt` relies on: queued
coordinates are pairwise distinct and are exactly the members of the
`ChunksInQueue` set. -/
def QueueInv (s : WorldState) : Prop :=
  (queueCoords s).Nodup ∧ ∀ c, c ∈ queueCoords s ↔ c ∈ s.chunksInQueue

theorem QueueInv.of_fields {s t : WorldState} (h : QueueInv s) (hq : t.queue = s.queue)
    (hc : t.chunksInQueue = s.chunksInQueue) : QueueInv t := by
  unfold QueueInv queueCoords at *
  rw [hq, hc]
  exact h

theorem queueInv_initState (a : ℤ) (b : ℚ) (c : ℤ) (d : ℕ) (e : Bool) (f : ℚ) :
    QueueInv (initState a b c d e f) := by
  simp [QueueInv, queueCoords, initState]

theorem queueInv_generateChunkAt (prio : Option Vec3 → (ℤ × ℤ × ℤ) → ℚ)
    (s : WorldState) (c : ℤ × ℤ × ℤ) (h : QueueInv s) :
    QueueInv (generateChunkAt prio s c) := by
  rcases h with ⟨hnd, hiff⟩
  rw [generateChunkAt]
  split_ifs with h1 h2
  · exact ⟨hnd, hiff⟩
  · exact ⟨hnd, hiff⟩
  · have hperm : List.Perm
        ((List.insertionSort (fun A B : GenTask => B.priority ≤ A.priority)
            (s.queue ++ [⟨c, prio s.lastPlayerPosition c⟩])).map GenTask.coordinate)
        (queueCoords s ++ [c]) := by
      have := (List.perm_insertionSort (fun A B : GenTask => B.priority ≤ A.priority)
        (s.queue ++ [⟨c, prio s.lastPlayerPosition c⟩])).map GenTask.coordinate
      simpa [queueCoords] using this
    have hcnot : c ∉ queueCoords s := fun hc => h2 ((hiff c).mp hc)
    constructor
    · refine hperm.nodup_iff.mpr ?_
      simp [List.nodup_append, hnd, hcnot]
    · intro x
      have hx := @List.Perm.mem_iff _ x _ _ hperm
      show x ∈ List.map GenTask.coordinate _ ↔ _
      rw [hx]
      simp only [List.mem_append, List.mem_singleton]
      exact or_congr (hiff x) Iff.rfl

theorem queueInv_processLoop (fuel : ℕ) :
    ∀ (s : WorldState) (processed : ℕ), QueueInv s → QueueInv (processLoop fuel s processed) := by
  induction fuel with
  | zero => intro s processed h; exact h
  | succ fuel ih =>
    intro s processed h
    rw [processLoop]
    split_ifs with hbudget
    · exact h
    · rcases hq : s.queue with _ | ⟨task, rest⟩
      · exact h
      · dsimp only
        rcases h with ⟨hnd, hiff⟩
        have hqc : queueCoords s = task.coordinate :: rest.map GenTask.coordinate := by
          simp [queueCoords, hq]
        rw [hqc] at hnd hiff
        have hhead : task.coordinate ∉ rest.map GenTask.coordinate :=
          (List.nodup_cons.mp hnd).1
        have hrest : (rest.map GenTask.coordinate).Nodup := (List.nodup_cons.mp hnd).2
        have h1 : QueueInv { s with queue := rest, chunksInQueue := s.chunksInQueue.filter (fun c => !(c = task.coordinate : Bool)) } := by
          refine ⟨hrest, fun x => ?_⟩
          simp only [queueCoords, List.mem_filter]
          constructor
          · intro hx
            have hxne : x ≠ task.coordinate := fun he => hhead (he ▸ hx)
            exact ⟨(hiff x).mp (by simp [hx]), by simp [hxne]⟩
          · rintro ⟨hx, hne⟩
            have := (hiff x).mpr hx
            simp only [List.mem_cons] at this
            rcases this with he | hx'
            · exact absurd he (by simpa using hne)
            · exact hx'
        split_ifs with hactive
        · exact ih _ _ h1
        · refine ih _ _ ?_
          refine QueueInv.of_fields h1 ?_ ?_ <;>
            · rw [onChunkGenerated, dispatchGeneration, getOrCreateChunkActor]
              rcases ({ s with queue := rest, chunksInQueue := s.chunksInQueue.filter (fun c => !(c = task.coordinate : Bool)) } : WorldState).chunkPool.getLast? with _ | a <;>
                split_ifs <;> simp [setActorGenerating, upsert]

theorem queueInv_processGenerationQueue (s : WorldState) (h : QueueInv s) :
    QueueInv (processGenerationQueue s) := by
  rw [processGenerationQueue]
  split_ifs with hq
  · exact h
  · exact queueInv_processLoop _ _ _ h

theorem returnChunkToPool_queue_fields (a : ℕ) (s : WorldState) :
    (returnChunkToPool a s).queue = s.queue ∧
    (returnChunkToPool a s).chunksInQueue = s.chunksInQueue := by
  rw [returnChunkToPool]; split_ifs <;> simp

theorem evictChunk_queue_fields (st : WorldState) (c : ℤ × ℤ × ℤ) :
    (evictChunk st c).queue = st.queue ∧
    (evictChunk st c).chunksInQueue = st.chunksInQueue := by
  rw [evictChunk]
  rcases findA c st.activeChunks with _ | d
  · exact ⟨rfl, rfl⟩
  · rcases hd : d.chunkActor with _ | a
    · simp [hd]
    · simp only [hd]
      split_ifs with hgen
      · exact ⟨rfl, rfl⟩
      · simpa using returnChunkToPool_queue_fields a st

theorem cleanupDistantChunks_queue_fields (required : List (ℤ × ℤ × ℤ)) (s : WorldState) :
    (cleanupDistantChunks required s).queue = s.queue ∧
    (cleanupDistantChunks required s).chunksInQueue = s.chunksInQueue := by
  rw [cleanupDistantChunks]
  generalize (s.activeChunks.map Prod.fst).filter (fun c => decide (c ∉ required)) = l
  induction l generalizing s with
  | nil => exact ⟨rfl, rfl⟩
  | cons c l ih =>
    have he := evictChunk_queue_fields s c
    have := ih (evictChunk s c)
    simp only [List.foldl_cons]
    exact ⟨this.1.trans he.1, this.2.trans he.2⟩

theorem queueInv_cleanupDistant (required : List (ℤ × ℤ × ℤ)) (s : WorldState)
    (h : QueueInv s) : QueueInv (cleanupDistantChunks required s) :=
  QueueInv.of_fields h (cleanupDistantChunks_queue_fields required s).1
    (cleanupDistantChunks_queue_fields required s).2

theorem queueInv_updateAroundPlayer (prio : Option Vec3 → (ℤ × ℤ × ℤ) → ℚ) (p : Vec3)
    (s : WorldState) (h : QueueInv s) : QueueInv (updateAroundPlayer prio p s) := by
  rw [updateAroundPlayer]
  have h0 : QueueInv { s with lastPlayerPosition := some p } :=
    QueueInv.of_fields h rfl rfl
  have hfold :
      ∀ (l : List (ℤ × ℤ × ℤ)) (t : WorldState), QueueInv t →
        QueueInv (l.foldl
          (fun st c => if (findA c st.activeChunks).isSome then st
            else generateChunkAt prio st c) t) := by
    intro l
    induction l with
    | nil => intro t ht; exact ht
    | cons c l ih =>
      intro t ht
      simp only [List.foldl_cons]
      refine ih _ ?_
      split_ifs with hc
      · exact ht
      · exact queueInv_generateChunkAt prio t c ht
  exact queueInv_cleanupDistant _ _ (hfold _ _ h0)

theorem queueInv_reachable (prio : Option Vec3 → (ℤ × ℤ × ℤ) → ℚ) (s : WorldState)
    (h : Reachable prio s) : QueueInv s := by
  induction h with
  | init a b c d e f => exact queueInv_initState a b c d e f
  | genAt c _ ih => exact queueInv_generateChunkAt prio _ c ih
  | update p _ ih => exact queueInv_updateAroundPlayer prio p _ ih
  | tick _ ih =>
    rw [tickUpdate]
    have h1 := queueInv_processGenerationQueue _ ih
    refine QueueInv.of_fields h1 ?_ ?_ <;>
      · rw [updateChunkLODs]
        cases (processGenerationQueue _).lastPlayerPosition <;> rfl
  | cleanup required _ ih => exact queueInv_cleanupDistant _ _ ih
  | pool a _ ih =>
    exact QueueInv.of_fields ih (returnChunkToPool_queue_fields _ _).1
      (returnChunkToPool_queue_fields _ _).2
  | @regen t _ ih =>
    rw [regenerateAllChunks]
    have h2 : QueueInv { cleanupAllChunks t with queue := [], chunksInQueue := [] } := by
      simp [QueueInv, queueCoords]
    cases ({ cleanupAllChunks t with queue := [], chunksInQueue := [] } : WorldState).lastPlayerPosition with
    | none => exact h2
    | some p => exact queueInv_updateAroundPlayer prio p _ h2
  | deinit _ ih => simp [deinitializeState, QueueInv, queueCoords]
  | finish a _ ih => exact QueueInv.of_fields ih rfl rfl
  | modify affected _ ih => exact QueueInv.of_fields ih rfl rfl

/-- The number of tasks in a coordinate list equal to `c`. -/
def countCoord (c : ℤ × ℤ × ℤ) (l : List (ℤ × ℤ × ℤ)) : ℕ :=
  l.countP fun x => decide (x = c)

theorem countCoord_eq_one_of_nodup_mem {c : ℤ × ℤ × ℤ} {l : List (ℤ × ℤ × ℤ)}
    (hnd : l.Nodup) (hm : c ∈ l) : countCoord c l = 1 := by
  induction l with
  | nil => simp at hm
  | cons a t ih =>
    rw [countCoord, List.countP_cons]
    rcases List.mem_cons.mp hm with he | ht
    · subst he
      have h0 : t.countP (fun x => decide (x = c)) = 0 := List.countP_eq_zero.mpr
        (fun x hx hp => (List.nodup_cons.mp hnd).1 (of_decide_eq_true hp ▸ hx))
      simp [h0]
    · have hne : ¬(a = c) := fun he2 => (List.nodup_cons.mp hnd).1 (by rw [he2]; exact ht)
      have ht1 := ih (List.nodup_cons.mp hnd).2 ht
      rw [countCoord] at ht1
      simp [ht1, hne]

/-- C7: in every reachable manager state the generation queue holds at most
one task per coordinate (the queued coordinates are pairwise distinct);
requesting a coordinate that is already queued or already has an active chunk
leaves the whole state unchanged; and requesting a not-yet-active coordinate
twice in a row leaves exactly one task for it in the queue. -/
theorem queue_at_most_one_task_per_coordinate (prio : Option Vec3 → (ℤ × ℤ × ℤ) → ℚ)
    (s : WorldState) (c : ℤ × ℤ × ℤ) (hs : Reachable prio s) :
    (queueCoords s).Nodup ∧
    ((findA c s.activeChunks).isSome = true ∨ c ∈ s.chunksInQueue →
      generateChunkAt prio s c = s) ∧
    ((findA c s.activeChunks).isSome = false →
      countCoord c (queueCoords (generateChunkAt prio (generateChunkAt prio s c) c)) = 1) := by
  obtain ⟨hnd, hiff⟩ := queueInv_reachable prio s hs
  refine ⟨hnd, ?_, ?_⟩
  · intro h
    rw [generateChunkAt]
    by_cases h1 : (findA c s.activeChunks).isSome = true
    · rw [if_pos h1]
    · rw [if_neg h1]
      have h2 : c ∈ s.chunksInQueue := by
        rcases h with h | h
        · exact absurd h h1
        · exact h
      rw [if_pos h2]
  · intro hact
    by_cases hin : c ∈ s.chunksInQueue
    · have hfix : generateChunkAt prio s c = s := by
        rw [generateChunkAt]
        by_cases h1 : (findA c s.activeChunks).isSome = true
        · rw [if_pos h1]
        · rw [if_neg h1, if_pos hin]
      rw [hfix, hfix]
      have hmem : c ∈ queueCoords s := (hiff c).mpr hin
      exact countCoord_eq_one_of_nodup_mem hnd hmem
    · have hstep : generateChunkAt prio s c =
          { s with
            queue := List.insertionSort (fun A B : GenTask => B.priority ≤ A.priority)
              (s.queue ++ [⟨c, prio s.lastPlayerPosition c⟩]),
            chunksInQueue := s.chunksInQueue ++ [c] } := by
        rw [generateChunkAt, if_neg (by simp [hact]), if_neg hin]
      have hfix2 : generateChunkAt prio (generateChunkAt prio s c) c =
          generateChunkAt prio s c := by
        rw [hstep]
        conv_lhs => rw [generateChunkAt]
        rw [if_neg (by simp [hact]), if_pos (by simp)]
      rw [hfix2, hstep]
      have hperm : List.Perm
          (queueCoords { s with
            queue := List.insertionSort (fun A B : GenTask => B.priority ≤ A.priority)
              (s.queue ++ [⟨c, prio s.lastPlayerPosition c⟩]),
            chunksInQueue := s.chunksInQueue ++ [c] }) (queueCoords s ++ [c]) := by
        have := (List.perm_insertionSort (fun A B : GenTask => B.priority ≤ A.priority)
          (s.queue ++ [⟨c, prio s.lastPlayerPosition c⟩])).map GenTask.coordinate
        simpa [queueCoords] using this
      rw [countCoord, hperm.countP_eq]
      have hcnot : c ∉ queueCoords s := fun hc => hin ((hiff c).mp hc)
      have h0 : countCoord c (queueCoords s) = 0 := List.countP_eq_zero.mpr
        (fun x hx hp => hcnot (of_decide_eq_true hp ▸ hx))
      simp only [countCoord] at h0
      simp [List.countP_append, h0]

/-- Witness for `queue_at_most_one_task_per_coordinate` on the freshly
initialized subsystem with its constructor defaults and the zero priority
function. -/
theorem queue_at_most_one_task_per_coordinate_witness :
    Reachable (fun _ _ => (0 : ℚ)) (initState 64 50 5 5 true 0) ∧
    ((queueCoords (initState 64 50 5 5 true 0)).Nodup ∧
     ((findA (0, 0, 0) (initState 64 50 5 5 true 0).activeChunks).isSome = true ∨
        (0, 0, 0) ∈ (initState 64 50 5 5 true 0).chunksInQueue →
       generateChunkAt (fun _ _ => (0 : ℚ)) (initState 64 50 5 5 true 0) (0, 0, 0) =
         initState 64 50 5 5 true 0) ∧
     ((findA (0, 0, 0) (initState 64 50 5 5 true 0).activeChunks).isSome = false →
       countCoord (0, 0, 0) (queueCoords (generateChunkAt (fun _ _ => (0 : ℚ))
           (generateChunkAt (fun _ _ => (0 : ℚ)) (initState 64 50 5 5 true 0) (0, 0, 0))
           (0, 0, 0))) = 1)) :=
  ⟨Reachable.init 64 50 5 5 true 0,
   queue_at_most_one_task_per_coordinate (fun _ _ => (0 : ℚ)) (initState 64 50 5 5 true 0)
     (0, 0, 0) (Reachable.init 64 50 5 5 true 0)⟩

/-! ### C8: eviction is deferred while a chunk is generating -/

theorem findA_mem {α β : Type} [DecidableEq α] {k : α} {b : β} :
    ∀ {l : List (α × β)}, findA k l = some b → (k, b) ∈ l := by
  intro l
  induction l with
  | nil => intro h; simp [findA] at h
  | cons e t ih =>
    obtain ⟨x, y⟩ := e
    intro h
    rw [findA] at h
    split_ifs at h with he
    · obtain rfl : x = k := he
      obtain rfl : y = b := Option.some.inj h
      exact List.mem_cons_self _ _
    · exact List.mem_cons_of_mem _ (ih h)

theorem mem_keys_of_findA {α β : Type} [DecidableEq α] {k : α} {b : β}
    {l : List (α × β)} (h : findA k l = some b) : k ∈ l.map Prod.fst :=
  List.mem_map_of_mem Prod.fst (findA_mem h)

theorem findA_removeKey_self {β : Type} (c : ℤ × ℤ × ℤ) (l : List ((ℤ × ℤ × ℤ) × β)) :
    findA c (removeKey c l) = none := by
  induction l with
  | nil => rfl
  | cons e t ih =>
    by_cases he : e.1 = c
    · simp [removeKey, he] at ih ⊢
      exact ih
    · simp only [removeKey, List.filter_cons] at ih ⊢
      simp [he, findA, ih]

theorem findA_removeKey_ne {β : Type} {c x : ℤ × ℤ × ℤ} (l : List ((ℤ × ℤ × ℤ) × β))
    (h : c ≠ x) : findA c (removeKey x l) = findA c l := by
  induction l with
  | nil => rfl
  | cons e t ih =>
    by_cases he : e.1 = x
    · have hec : ¬(e.1 = c) := by rw [he]; exact Ne.symm h
      simp only [removeKey] at ih ⊢
      rw [List.filter_cons_of_neg (by simp [he]), ih, findA, if_neg hec]
    · simp only [removeKey] at ih ⊢
      rw [List.filter_cons_of_pos (by simp [he]), findA, findA]
      by_cases hec : e.1 = c
      · rw [if_pos hec, if_pos hec]
      · rw [if_neg hec, if_neg hec, ih]

theorem returnChunkToPool_active (a : ℕ) (st : WorldState) :
    (returnChunkToPool a st).activeChunks = st.activeChunks := by
  rw [returnChunkToPool]; split_ifs <;> rfl

theorem returnChunkToPool_gen (a : ℕ) (st : WorldState) :
    (returnChunkToPool a st).actorGenerating = st.actorGenerating := by
  rw [returnChunkToPool]; split_ifs <;> rfl

theorem returnChunkToPool_pool_mem {b a : ℕ} {st : WorldState}
    (h : b ∈ (returnChunkToPool a st).chunkPool) : b ∈ st.chunkPool ∨ b = a := by
  rw [returnChunkToPool] at h
  split_ifs at h
  · exact Or.inl h
  · simpa using h
  · exact Or.inl h

theorem returnChunkToPool_dest_mem {b a : ℕ} {st : WorldState}
    (h : b ∈ (returnChunkToPool a st).destroyedActors) :
    b ∈ st.destroyedActors ∨ b = a := by
  rw [returnChunkToPool] at h
  split_ifs at h
  · exact Or.inl h
  · exact Or.inl h
  · simpa using h

theorem returnChunkToPool_pool_mono {b a : ℕ} {st : WorldState}
    (h : b ∈ st.chunkPool) : b ∈ (returnChunkToPool a st).chunkPool := by
  rw [returnChunkToPool]; split_ifs <;> simp [h]

theorem returnChunkToPool_dest_mono {b a : ℕ} {st : WorldState}
    (h : b ∈ st.destroyedActors) : b ∈ (returnChunkToPool a st).destroyedActors := by
  rw [returnChunkToPool]; split_ifs <;> simp [h]

theorem returnChunkToPool_pools {a : ℕ} {st : WorldState}
    (h : actorIsGenerating st a = false) :
    a ∈ (returnChunkToPool a st).chunkPool ∨ a ∈ (returnChunkToPool a st).destroyedActors := by
  rw [returnChunkToPool, if_neg (by simp [h])]
  split_ifs with hlen
  · simp
  · simp

theorem actorIsGenerating_congr {st st' : WorldState} (a : ℕ)
    (h : st.actorGenerating = st'.actorGenerating) :
    actorIsGenerating st a = actorIsGenerating st' a := by
  rw [actorIsGenerating, actorIsGenerating, h]

theorem findA_set_false (a : ℕ) : ∀ (l : List (ℕ × Bool)),
    ((findA a (l.map fun e => if e.1 = a then (a, false) else e)).getD false) = false := by
  intro l
  induction l with
  | nil => rfl
  | cons e t ih =>
    by_cases he : e.1 = a
    · simp [findA, he]
    · simp only [List.map_cons, if_neg he, findA, he, if_false]
      exact ih

theorem actorIsGenerating_set_false (a : ℕ) (s : WorldState) :
    actorIsGenerating (setActorGenerating a false s) a = false := by
  rw [actorIsGenerating, setActorGenerating]
  exact findA_set_false a s.actorGenerating

theorem evictChunk_gen (st : WorldState) (x : ℤ × ℤ × ℤ) :
    (evictChunk st x).actorGenerating = st.actorGenerating := by
  rw [evictChunk]
  rcases findA x st.activeChunks with _ | d
  · rfl
  · rcases hd : d.chunkActor with _ | a
    · simp [hd]
    · simp only [hd]
      split_ifs with hg
      · rfl
      · exact returnChunkToPool_gen a st

theorem evictChunk_active_sublist (st : WorldState) (x : ℤ × ℤ × ℤ) :
    ((evictChunk st x).activeChunks).Sublist st.activeChunks := by
  rw [evictChunk]
  rcases findA x st.activeChunks with _ | d
  · exact List.Sublist.refl _
  · rcases hd : d.chunkActor with _ | a
    · simp only [hd]
      exact List.filter_sublist st.activeChunks
    · simp only [hd]
      split_ifs with hg
      · exact List.Sublist.refl _
      · show (removeKey x (returnChunkToPool a st).activeChunks).Sublist st.activeChunks
        rw [returnChunkToPool_active]
        exact List.filter_sublist st.activeChunks

theorem evictChunk_findA_ne (st : WorldState) {x c : ℤ × ℤ × ℤ} (h : c ≠ x) :
    findA c (evictChunk st x).activeChunks = findA c st.activeChunks := by
  rw [evictChunk]
  rcases findA x st.activeChunks with _ | d
  · rfl
  · rcases hd : d.chunkActor with _ | a
    · simp only [hd]
      exact findA_removeKey_ne st.activeChunks h
    · simp only [hd]
      split_ifs with hg
      · rfl
      · show findA c (removeKey x (returnChunkToPool a st).activeChunks) = _
        rw [returnChunkToPool_active]
        exact findA_removeKey_ne st.activeChunks h

theorem evictChunk_skip (st : WorldState) {c : ℤ × ℤ × ℤ} {d : ChunkData} {a : ℕ}
    (hf : findA c st.activeChunks = some d) (ha : d.chunkActor = some a)
    (hg : actorIsGenerating st a = true) : evictChunk st c = st := by
  rw [evictChunk, hf]
  dsimp only
  rw [ha]
  dsimp only
  rw [if_pos hg]

theorem evictChunk_no_entry (st : WorldState) {x : ℤ × ℤ × ℤ}
    (hf : findA x st.activeChunks = none) : evictChunk st x = st := by
  rw [evictChunk, hf]

theorem evictChunk_removes (st : WorldState) {c : ℤ × ℤ × ℤ} {d : ChunkData} {a : ℕ}
    (hf : findA c st.activeChunks = some d) (ha : d.chunkActor = some a)
    (hg : actorIsGenerating st a = false) :
    findA c (evictChunk st c).activeChunks = none ∧
    (a ∈ (evictChunk st c).chunkPool ∨ a ∈ (evictChunk st c).destroyedActors) := by
  rw [evictChunk, hf]
  dsimp only
  rw [ha]
  dsimp only
  rw [if_neg (by simp [hg])]
  constructor
  · show findA c (removeKey c (returnChunkToPool a st).activeChunks) = none
    exact findA_removeKey_self c _
  · show a ∈ (returnChunkToPool a st).chunkPool ∨ a ∈ (returnChunkToPool a st).destroyedActors
    exact returnChunkToPool_pools hg

theorem evictChunk_pool_mem {b : ℕ} (st : WorldState) (x : ℤ × ℤ × ℤ)
    (h : b ∈ (evictChunk st x).chunkPool) :
    b ∈ st.chunkPool ∨ ∃ d, findA x st.activeChunks = some d ∧ d.chunkActor = some b := by
  rw [evictChunk] at h
  rcases hfx : findA x st.activeChunks with _ | d <;> rw [hfx] at h
  · exact Or.inl h
  · dsimp only at h
    rcases hd : d.chunkActor with _ | a <;> rw [hd] at h
    · exact Or.inl h
    · dsimp only at h
      split_ifs at h with hg
      · exact Or.inl h
      · have : b ∈ (returnChunkToPool a st).chunkPool := h
        rcases returnChunkToPool_pool_mem this with hb | hb
        · exact Or.inl hb
        · exact Or.inr ⟨d, rfl, hb ▸ hd⟩

theorem evictChunk_dest_mem {b : ℕ} (st : WorldState) (x : ℤ × ℤ × ℤ)
    (h : b ∈ (evictChunk st x).destroyedActors) :
    b ∈ st.destroyedActors ∨ ∃ d, findA x st.activeChunks = some d ∧ d.chunkActor = some b := by
  rw [evictChunk] at h
  rcases hfx : findA x st.activeChunks with _ | d <;> rw [hfx] at h
  · exact Or.inl h
  · dsimp only at h
    rcases hd : d.chunkActor with _ | a <;> rw [hd] at h
    · exact Or.inl h
    · dsimp only at h
      split_ifs at h with hg
      · exact Or.inl h
      · have : b ∈ (returnChunkToPool a st).destroyedActors := h
        rcases returnChunkToPool_dest_mem this with hb | hb
        · exact Or.inl hb
        · exact Or.inr ⟨d, rfl, hb ▸ hd⟩

theorem evictChunk_pool_mono {b : ℕ} (st : WorldState) (x : ℤ × ℤ × ℤ)
    (h : b ∈ st.chunkPool) : b ∈ (evictChunk st x).chunkPool := by
  rw [evictChunk]
  rcases findA x st.activeChunks with _ | d
  · exact h
  · rcases hd : d.chunkActor with _ | a
    · simp only [hd]; exact h
    · simp only [hd]
      split_ifs with hg
      · exact h
      · exact returnChunkToPool_pool_mono h

theorem evictChunk_dest_mono {b : ℕ} (st : WorldState) (x : ℤ × ℤ × ℤ)
    (h : b ∈ st.destroyedActors) : b ∈ (evictChunk st x).destroyedActors := by
  rw [evictChunk]
  rcases findA x st.activeChunks with _ | d
  · exact h
  · rcases hd : d.chunkActor with _ | a
    · simp only [hd]; exact h
    · simp only [hd]
      split_ifs with hg
      · exact h
      · exact returnChunkToPool_dest_mono h

theorem evict_fold_sublist : ∀ (l : List (ℤ × ℤ × ℤ)) (st : WorldState),
    ((l.foldl evictChunk st).activeChunks).Sublist st.activeChunks := by
  intro l
  induction l with
  | nil => intro st; exact List.Sublist.refl _
  | cons x l ih =>
    intro st
    exact (ih (evictChunk st x)).trans (evictChunk_active_sublist st x)

/-- While a chunk's actor keeps its generation flag raised (and no other
active entry shares that actor), a whole eviction fold leaves the entry, the
flag table, and the actor's absence from pool/destroyed intact. -/
theorem evict_fold_defers {c : ℤ × ℤ × ℤ} {d : ChunkData} {a : ℕ} (s : WorldState)
    (ha : d.chunkActor = some a)
    (hgen : actorIsGenerating s a = true)
    (huniq : ∀ e ∈ s.activeChunks, e.2.chunkActor = some a → e.1 = c) :
    ∀ (l : List (ℤ × ℤ × ℤ)) (st : WorldState),
      findA c st.activeChunks = some d →
      st.actorGenerating = s.actorGenerating →
      a ∉ st.chunkPool → a ∉ st.destroyedActors →
      (∀ e ∈ st.activeChunks, e ∈ s.activeChunks) →
      findA c (l.foldl evictChunk st).activeChunks = some d ∧
      (l.foldl evictChunk st).actorGenerating = s.actorGenerating ∧
      a ∉ (l.foldl evictChunk st).chunkPool ∧
      a ∉ (l.foldl evictChunk st).destroyedActors ∧
      (∀ e ∈ (l.foldl evictChunk st).activeChunks, e ∈ s.activeChunks) := by
  intro l
  induction l with
  | nil => intro st h1 h2 h3 h4 h5; exact ⟨h1, h2, h3, h4, h5⟩
  | cons x l ih =>
    intro st h1 h2 h3 h4 h5
    rw [List.foldl_cons]
    by_cases hx : x = c
    · subst hx
      rw [evictChunk_skip st h1 ha (by rw [actorIsGenerating_congr a h2]; exact hgen)]
      exact ih st h1 h2 h3 h4 h5
    · have hxc : c ≠ x := Ne.symm hx
      refine ih (evictChunk st x) ?_ ?_ ?_ ?_ ?_
      · rw [evictChunk_findA_ne st hxc]; exact h1
      · rw [evictChunk_gen]; exact h2
      · intro hmem
        rcases evictChunk_pool_mem st x hmem with hb | ⟨d', hfx, hax⟩
        · exact h3 hb
        · exact hx (huniq (x, d') (h5 _ (findA_mem hfx)) hax)
      · intro hmem
        rcases evictChunk_dest_mem st x hmem with hb | ⟨d', hfx, hax⟩
        · exact h4 hb
        · exact hx (huniq (x, d') (h5 _ (findA_mem hfx)) hax)
      · intro e he
        exact h5 e ((evictChunk_active_sublist st x).subset he)

/-- An eviction fold over coordinates other than `c` preserves `c`'s entry and
the flag table. -/
theorem evict_fold_avoids {c : ℤ × ℤ × ℤ} {d : ChunkData} {g : List (ℕ × Bool)} :
    ∀ (l : List (ℤ × ℤ × ℤ)) (st : WorldState), c ∉ l →
      findA c st.activeChunks = some d → st.actorGenerating = g →
      findA c (l.foldl evictChunk st).activeChunks = some d ∧
      (l.foldl evictChunk st).actorGenerating = g := by
  intro l
  induction l with
  | nil => intro st _ h1 h2; exact ⟨h1, h2⟩
  | cons x l ih =>
    intro st hc h1 h2
    rw [List.foldl_cons]
    have hxc : c ≠ x := fun he => hc (by rw [he]; exact List.mem_cons_self x l)
    refine ih (evictChunk st x) (fun hm => hc (List.mem_cons_of_mem x hm)) ?_ ?_
    · rw [evictChunk_findA_ne st hxc]; exact h1
    · rw [evictChunk_gen]; exact h2

/-- Once `c`'s entry is gone and its actor pooled or destroyed, any further
eviction fold keeps it so. -/
theorem evict_fold_keeps_gone {c : ℤ × ℤ × ℤ} {a : ℕ} :
    ∀ (l : List (ℤ × ℤ × ℤ)) (st : WorldState),
      findA c st.activeChunks = none →
      (a ∈ st.chunkPool ∨ a ∈ st.destroyedActors) →
      findA c (l.foldl evictChunk st).activeChunks = none ∧
      (a ∈ (l.foldl evictChunk st).chunkPool ∨
        a ∈ (l.foldl evictChunk st).destroyedActors) := by
  intro l
  induction l with
  | nil => intro st h1 h2; exact ⟨h1, h2⟩
  | cons x l ih =>
    intro st h1 h2
    rw [List.foldl_cons]
    refine ih (evictChunk st x) ?_ ?_
    · by_cases hx : x = c
      · subst hx; rw [evictChunk_no_entry st h1]; exact h1
      · rw [evictChunk_findA_ne st (Ne.symm hx)]; exact h1
    · rcases h2 with h2 | h2
      · exact Or.inl (evictChunk_pool_mono st x h2)
      · exact Or.inr (evictChunk_dest_mono st x h2)

/-- C8: a chunk whose actor's generation flag is set is never pooled or
destroyed by an eviction pass — even when its coordinate is outside the
required set, the pass leaves its active-map entry unchanged and its actor out
of the pool and destroyed set; once the flag clears (the async completion
continuation, CaveChunk.cpp 703), the next eviction pass removes the entry and
returns the actor to the pool (or destroys it when the pool is full).
Hypotheses: the active map has no duplicate keys, `c`'s entry `d` holds actor
`a` whose flag is set, no other active entry shares actor `a`, and `a` is not
already pooled or destroyed. -/
theorem generating_chunk_eviction_deferred (s : WorldState)
    (required : List (ℤ × ℤ × ℤ)) (c : ℤ × ℤ × ℤ) (d : ChunkData) (a : ℕ)
    (hkeys : (s.activeChunks.map Prod.fst).Nodup)
    (hfind : findA c s.activeChunks = some d)
    (hreq : c ∉ required)
    (hactor : d.chunkActor = some a)
    (hgen : actorIsGenerating s a = true)
    (huniq : ∀ e ∈ s.activeChunks, e.2.chunkActor = some a → e.1 = c)
    (hpool : a ∉ s.chunkPool) (hdest : a ∉ s.destroyedActors) :
    (findA c (cleanupDistantChunks required s).activeChunks = some d ∧
     a ∉ (cleanupDistantChunks required s).chunkPool ∧
     a ∉ (cleanupDistantChunks required s).destroyedActors) ∧
    (findA c (cleanupDistantChunks required
        (setActorGenerating a false (cleanupDistantChunks required s))).activeChunks = none ∧
     (a ∈ (cleanupDistantChunks required
         (setActorGenerating a false (cleanupDistantChunks required s))).chunkPool ∨
      a ∈ (cleanupDistantChunks required
         (setActorGenerating a false (cleanupDistantChunks required s))).destroyedActors)) := by
  have hpass1 := evict_fold_defers s hactor hgen huniq
    ((s.activeChunks.map Prod.fst).filter fun x => decide (x ∉ required)) s
    hfind rfl hpool hdest (fun e he => he)
  rw [cleanupDistantChunks]
  obtain ⟨p1find, p1gen, p1pool, p1dest, p1sub⟩ := hpass1
  refine ⟨⟨p1find, p1pool, p1dest⟩, ?_⟩
  set s1 := ((s.activeChunks.map Prod.fst).filter
    fun x => decide (x ∉ required)).foldl evictChunk s with hs1
  set s2 := setActorGenerating a false s1 with hs2
  have h2find : findA c s2.activeChunks = some d := p1find
  have h2gen : actorIsGenerating s2 a = false := actorIsGenerating_set_false a s1
  have h2keys : (s2.activeChunks.map Prod.fst).Nodup := by
    have hsub : (s1.activeChunks).Sublist s.activeChunks := evict_fold_sublist _ s
    exact hkeys.sublist (hsub.map Prod.fst)
  have hcmem : c ∈ (s2.activeChunks.map Prod.fst).filter
      (fun x => decide (x ∉ required)) := by
    refine List.mem_filter.mpr ⟨mem_keys_of_findA h2find, by simpa using hreq⟩
  have hnd2 : ((s2.activeChunks.map Prod.fst).filter
      (fun x => decide (x ∉ required))).Nodup := h2keys.filter _
  obtain ⟨l1, l2, hsplit⟩ := List.append_of_mem hcmem
  have hcnot : c ∉ l1 ∧ c ∉ l2 := by
    rw [hsplit] at hnd2
    have hmid := (List.nodup_cons.mp (List.nodup_middle.mp hnd2)).1
    simp only [List.mem_append] at hmid
    exact ⟨fun hh => hmid (Or.inl hh), fun hh => hmid (Or.inr hh)⟩
  rw [cleanupDistantChunks, hsplit, List.foldl_append, List.foldl_cons]
  have hphaseA := evict_fold_avoids l1 s2 hcnot.1 h2find rfl
  have hAgen : actorIsGenerating (l1.foldl evictChunk s2) a = false := by
    rw [actorIsGenerating_congr a hphaseA.2]; exact h2gen
  have hremoved := evictChunk_removes (l1.foldl evictChunk s2) hphaseA.1 hactor hAgen
  exact evict_fold_keeps_gone l2 _ hremoved.1 hremoved.2

/-- Witness for `generating_chunk_eviction_deferred`: one active chunk at the
origin whose actor 0 is generating, an empty required set, an empty pool. -/
theorem generating_chunk_eviction_deferred_witness :
    (((([(((0 : ℤ), (0 : ℤ), (0 : ℤ)),
        { ChunkData.defaultData with chunkActor := some 0 })]).map Prod.fst).Nodup) ∧
     True) ∧
    ((findA ((0 : ℤ), (0 : ℤ), (0 : ℤ))
        (cleanupDistantChunks []
          { initState 64 50 5 5 true 0 with
            activeChunks := [(((0 : ℤ), (0 : ℤ), (0 : ℤ)),
              { ChunkData.defaultData with chunkActor := some 0 })],
            actorGenerating := [(0, true)] }).activeChunks =
        some { ChunkData.defaultData with chunkActor := some 0 } ∧
      0 ∉ (cleanupDistantChunks []
          { initState 64 50 5 5 true 0 with
            activeChunks := [(((0 : ℤ), (0 : ℤ), (0 : ℤ)),
              { ChunkData.defaultData with chunkActor := some 0 })],
            actorGenerating := [(0, true)] }).chunkPool ∧
      0 ∉ (cleanupDistantChunks []
          { initState 64 50 5 5 true 0 with
            activeChunks := [(((0 : ℤ), (0 : ℤ), (0 : ℤ)),
              { ChunkData.defaultData with chunkActor := some 0 })],
            actorGenerating := [(0, true)] }).destroyedActors) ∧
     (findA ((0 : ℤ), (0 : ℤ), (0 : ℤ))
        (cleanupDistantChunks []
          (setActorGenerating 0 false
            (cleanupDistantChunks []
              { initState 64 50 5 5 true 0 with
                activeChunks := [(((0 : ℤ), (0 : ℤ), (0 : ℤ)),
                  { ChunkData.defaultData with chunkActor := some 0 })],
                actorGenerating := [(0, true)] }))).activeChunks = none ∧
      (0 ∈ (cleanupDistantChunks []
          (setActorGenerating 0 false
            (cleanupDistantChunks []
              { initState 64 50 5 5 true 0 with
                activeChunks := [(((0 : ℤ), (0 : ℤ), (0 : ℤ)),
                  { ChunkData.defaultData with chunkActor := some 0 })],
                actorGenerating := [(0, true)] }))).chunkPool ∨
       0 ∈ (cleanupDistantChunks []
          (setActorGenerating 0 false
            (cleanupDistantChunks []
              { initState 64 50 5 5 true 0 with
                activeChunks := [(((0 : ℤ), (0 : ℤ), (0 : ℤ)),
                  { ChunkData.defaultData with chunkActor := some 0 })],
                actorGenerating := [(0, true)] }))).destroyedActors))) :=
  ⟨⟨by simp, trivial⟩,
   generating_chunk_eviction_deferred
     { initState 64 50 5 5 true 0 with
       activeChunks := [(((0 : ℤ), (0 : ℤ), (0 : ℤ)),
         { ChunkData.defaultData with chunkActor := some 0 })],
       actorGenerating := [(0, true)] }
     [] ((0 : ℤ), (0 : ℤ), (0 : ℤ)) { ChunkData.defaultData with chunkActor := some 0 } 0
     (by simp) (by simp [findA]) (by simp) rfl rfl
     (by intro e he; simp at he; simp [he]) (by simp [initState]) (by simp [initState])⟩

/-! ## Cached marching-cubes extraction (CaveChunk.cpp 879–985)

The constant tables live in `MarchingCubesTables.h`, which is not under src/;
the spec (§4.3) fixes them as "the standard marching-cubes constant tables".
The corner numbering, edge list, and the defining property of the 256-entry
edge table (bit *i* set iff edge *i*'s corners are on opposite sides) are
modelled from the spec; the triangulation table is taken as a parameter `tt`
of the builder — the vertex output is independent of it
(`buildCached_verts_tt_independent`). -/

/-- Modelled from the spec (§4.3): corner offsets of the standard
marching-cubes corner numbering (`MarchingCubes::VertexOffsets`). -/
def vertexOffsets : ℕ → ℕ × ℕ × ℕ
  | 0 => (0, 0, 0) | 1 => (1, 0, 0) | 2 => (1, 1, 0) | 3 => (0, 1, 0)
  | 4 => (0, 0, 1) | 5 => (1, 0, 1) | 6 => (1, 1, 1) | 7 => (0, 1, 1)
  | _ => (0, 0, 0)

/-- Modelled from the spec (§4.3): the corner pair of each of the standard 12
cube edges (`MarchingCubes::EdgeConnections`). -/
def edgeConnections : ℕ → ℕ × ℕ
  | 0 => (0, 1) | 1 => (1, 2) | 2 => (2, 3) | 3 => (3, 0)
  | 4 => (4, 5) | 5 => (5, 6) | 6 => (6, 7) | 7 => (7, 4)
  | 8 => (0, 4) | 9 => (1, 5) | 10 => (2, 6) | 11 => (3, 7)
  | _ => (0, 0)

/-- Modelled from the spec (§4.3): bit `i` of the standard `EdgeTable` row for
a corner-status assignment `cfg` — set exactly when the edge's two corners lie
on opposite sides of the threshold (`EdgeTable[CubeIndex] & (1 << i)` in the
source). -/
def edgeActive (cfg : ℕ → Bool) (i : ℕ) : Bool :=
  cfg (edgeConnections i).1 != cfg (edgeConnections i).2

/-- `ACaveChunk::GetCubeConfiguration` (CaveChunk.cpp 791–802): bit `i` set
when corner `i`'s density is below the threshold (each `|=` ors in a fresh
single bit, i.e. adds a disjoint power of two). -/
def getCubeConfiguration (c : ℕ → ℚ) (thr : ℚ) : ℕ :=
  (List.range 8).foldl (fun acc i => if c i < thr then acc + (1 <<< i) else acc) 0

/-- `EdgeKey` (CaveChunk.cpp 21–25). -/
def edgeKey (x y z axis S : ℕ) : ℕ := (((z * S) + y) * S + x) * 16 + axis

/-- `FMath::Clamp(v, 0, N)` on the non-negative corner coordinates used by
`Sample` (CaveChunk.cpp 893–900). -/
def clampN (N v : ℕ) : ℕ := min v N

/-- The `Sample` lambda (CaveChunk.cpp 893–900). -/
def sampleField (field : List ℚ) (N x y z : ℕ) : ℚ :=
  field.getD (clampN N x + clampN N y * (N + 1) + clampN N z * (N + 1) * (N + 1)) 0

/-- Corner `i`'s density for the cube at `(x, y, z)` (CaveChunk.cpp 918–925). -/
def cubeCorner (field : List ℚ) (N x y z i : ℕ) : ℚ :=
  sampleField field N (x + (vertexOffsets i).1) (y + (vertexOffsets i).2.1)
    (z + (vertexOffsets i).2.2)

/-- Chunk-local position of a cube corner (`P1`/`P2`, CaveChunk.cpp 953–956). -/
def cornerPos (voxel : ℚ) (x y z i : ℕ) : Vec3 :=
  ⟨((x + (vertexOffsets i).1 : ℕ) : ℚ) * voxel,
   ((y + (vertexOffsets i).2.1 : ℕ) : ℚ) * voxel,
   ((z + (vertexOffsets i).2.2 : ℕ) : ℚ) * voxel⟩

/-- The cache axis of edge `i` (CaveChunk.cpp 962–965): first differing
coordinate of the two corner offsets. -/
def edgeAxis (i : ℕ) : ℕ :=
  let o1 := vertexOffsets (edgeConnections i).1
  let o2 := vertexOffsets (edgeConnections i).2
  if o2.1 ≠ o1.1 then 0 else if o2.2.1 ≠ o1.2.1 then 1 else 2

/-- The cache anchor of edge `i` for the cube at `(x, y, z)`: componentwise
minimum of the two corner coordinates (CaveChunk.cpp 966). -/
def edgeAnchor (x y z i : ℕ) : ℕ × ℕ × ℕ :=
  let o1 := vertexOffsets (edgeConnections i).1
  let o2 := vertexOffsets (edgeConnections i).2
  (x + min o1.1 o2.1, y + min o1.2.1 o2.2.1, z + min o1.2.2 o2.2.2)

/-- The growing output of the cached builder: vertex list, edge-key cache
(`EdgeVertexCache`), triangle list. -/
structure BuildState where
  verts : List Vec3
  cache : List (ℕ × ℕ)
  tris : List (ℕ × ℕ × ℕ)

/-- `GetOrCreateEdgeVertex` and the per-edge loop body (CaveChunk.cpp
933–970) for edge `i` of the cube at `(x, y, z)`: on an active edge, look the
edge key up in the chunk-wide cache, interpolating and caching a fresh vertex
on a miss; the second component records `vlist` for triangle emission. -/
def processEdge (thr voxel : ℚ) (N : ℕ) (field : List ℚ) (x y z : ℕ)
    (st : BuildState × (ℕ → ℕ)) (i : ℕ) : BuildState × (ℕ → ℕ) :=
  if edgeActive (fun k => decide (cubeCorner field N x y z k < thr)) i then
    let e1 := (edgeConnections i).1
    let e2 := (edgeConnections i).2
    let a := edgeAnchor x y z i
    let key := edgeKey a.1 a.2.1 a.2.2 (edgeAxis i) (N + 1)
    match findA key st.1.cache with
    | some idx => (st.1, Function.update st.2 i idx)
    | none =>
      let pos := interpolateVertex thr (cornerPos voxel x y z e1) (cornerPos voxel x y z e2)
        (cubeCorner field N x y z e1) (cubeCorner field N x y z e2)
      let idx := st.1.verts.length
      ({ st.1 with verts := st.1.verts ++ [pos], cache := st.1.cache ++ [(key, idx)] },
       Function.update st.2 i idx)
  else st

/-- Grouping of a triangulation row into triangles (the source walks
`TriTable[cubeIndex]` three entries at a time until the `-1` sentinel). -/
def toTriples : List ℕ → List (ℕ × ℕ × ℕ)
  | a :: b :: c :: rest => (a, b, c) :: toTriples rest
  | _ => []

/-- One cube of the extraction loop (CaveChunk.cpp 916–983): sample the 8
corners, skip when no edge is crossed (`EdgeTable[CubeIndex] == 0`), create or
reuse the edge vertices in ascending edge order, then emit the row's triangles
with the source's inward winding `(a, c, b)`. -/
def processCube (thr voxel : ℚ) (tt : ℕ → List ℕ) (N : ℕ) (field : List ℚ)
    (st : BuildState) (cube : ℕ × ℕ × ℕ) : BuildState :=
  let x := cube.1
  let y := cube.2.1
  let z := cube.2.2
  let cfg := fun k => decide (cubeCorner field N x y z k < thr)
  if (List.range 12).all (fun i => !(edgeActive cfg i)) then st
  else
    let r := (List.range 12).foldl (processEdge thr voxel N field x y z) (st, fun _ => 0)
    let row := toTriples (tt (getCubeConfiguration (cubeCorner field N x y z) thr))
    { r.1 with tris := r.1.tris ++ row.map fun t => (r.2 t.1, r.2 t.2.2, r.2 t.2.1) }

/-- The cube ordering of the triple loop (z outermost, x innermost,
CaveChunk.cpp 912–916). -/
def cubeList (N : ℕ) : List (ℕ × ℕ × ℕ) :=
  (List.range N).flatMap fun z => (List.range N).flatMap fun y =>
    (List.range N).map fun x => (x, y, z)

/-- `ACaveChunk::BuildMeshFromDensityFieldCached` (CaveChunk.cpp 879–985):
the vertex/triangle extraction with the chunk-wide edge-vertex cache.  The
gradient-normal pass of the same function (987–1022) maps `densityAtLocal`
over the vertices and touches neither vertices nor triangles. -/
def buildMeshFromDensityFieldCached (tt : ℕ → List ℕ) (N : ℕ) (field : List ℚ)
    (thr voxel : ℚ) : List Vec3 × List (ℕ × ℕ × ℕ) :=
  let r := (cubeList N).foldl (processCube thr voxel tt N field) ⟨[], [], []⟩
  (r.verts, r.tris)

def processEdgeB (thr voxel : ℚ) (N : ℕ) (field : List ℚ) (x y z : ℕ)
    (b : BuildState) (i : ℕ) : BuildState :=
  (processEdge thr voxel N field x y z (b, fun _ => 0) i).1

theorem processEdge_fst (thr voxel : ℚ) (N : ℕ) (field : List ℚ) (x y z : ℕ)
    (b : BuildState) (v : ℕ → ℕ) (i : ℕ) :
    (processEdge thr voxel N field x y z (b, v) i).1 =
      processEdgeB thr voxel N field x y z b i := by
  rcases h : findA (edgeKey (edgeAnchor x y z i).1 (edgeAnchor x y z i).2.1
      (edgeAnchor x y z i).2.2 (edgeAxis i) (N + 1)) b.cache with _ | idx <;>
    · simp only [processEdge, processEdgeB, h]
      split_ifs <;> rfl

theorem edgeFold_fst (thr voxel : ℚ) (N : ℕ) (field : List ℚ) (x y z : ℕ) :
    ∀ (l : List ℕ) (b : BuildState) (v : ℕ → ℕ),
      ((l.foldl (processEdge thr voxel N field x y z) (b, v)).1) =
        l.foldl (processEdgeB thr voxel N field x y z) b := by
  intro l
  induction l with
  | nil => intro b v; rfl
  | cons i rest ih =>
    intro b v
    rw [List.foldl_cons, List.foldl_cons]
    rcases hst : processEdge thr voxel N field x y z (b, v) i with ⟨b', v'⟩
    rw [ih b' v']
    have : b' = processEdgeB thr voxel N field x y z b i := by
      rw [← processEdge_fst thr voxel N field x y z b v i, hst]
    rw [this]

theorem buildCached_threshold_corner_eval :
    (buildMeshFromDensityFieldCached (fun _ => []) 1
        [0, -1, 1, 1, -1, 1, 1, 1] 0 1).1 =
      [⟨0, 0, 0⟩, ⟨1, 1/2, 0⟩, ⟨1/2, 0, 1⟩, ⟨0, 1/2, 1⟩, ⟨0, 0, 0⟩, ⟨1, 0, 1/2⟩] := by
  have hcl : cubeList 1 = [(0, 0, 0)] := by decide
  unfold buildMeshFromDensityFieldCached
  rw [hcl]
  simp only [List.foldl_cons, List.foldl_nil]
  rw [processCube]
  rw [if_neg (by decide)]
  simp only
  rw [edgeFold_fst]
  rw [show List.range 12 = [0,1,2,3,4,5,6,7,8,9,10,11] by decide]
  simp only [List.foldl_cons, List.foldl_nil]
  have he0 : processEdgeB 0 1 1 [0, -1, 1, 1, -1, 1, 1, 1] 0 0 0 ⟨[], [], []⟩ 0 =
      ⟨[⟨0, 0, 0⟩], [(0, 0)], []⟩ := by
    rw [processEdgeB, processEdge, if_pos (by decide)]
    norm_num [edgeAnchor, edgeAxis, edgeKey, edgeConnections, vertexOffsets, findA,
      interpolateVertex, interpEps, cornerPos, cubeCorner, sampleField, clampN]
  have he1 : processEdgeB 0 1 1 [0, -1, 1, 1, -1, 1, 1, 1] 0 0 0
      ⟨[⟨0, 0, 0⟩], [(0, 0)], []⟩ 1 =
      ⟨[⟨0, 0, 0⟩, ⟨1, 1/2, 0⟩], [(0, 0), (17, 1)], []⟩ := by
    rw [processEdgeB, processEdge, if_pos (by decide)]
    norm_num [edgeAnchor, edgeAxis, edgeKey, edgeConnections, vertexOffsets, findA,
      interpolateVertex, interpEps, cornerPos, cubeCorner, sampleField, clampN]
  have he2 : processEdgeB 0 1 1 [0, -1, 1, 1, -1, 1, 1, 1] 0 0 0
      ⟨[⟨0, 0, 0⟩, ⟨1, 1/2, 0⟩], [(0, 0), (17, 1)], []⟩ 2 =
      ⟨[⟨0, 0, 0⟩, ⟨1, 1/2, 0⟩], [(0, 0), (17, 1)], []⟩ := by
    rw [processEdgeB, processEdge, if_neg (by decide)]
  have he3 : processEdgeB 0 1 1 [0, -1, 1, 1, -1, 1, 1, 1] 0 0 0
      ⟨[⟨0, 0, 0⟩, ⟨1, 1/2, 0⟩], [(0, 0), (17, 1)], []⟩ 3 =
      ⟨[⟨0, 0, 0⟩, ⟨1, 1/2, 0⟩], [(0, 0), (17, 1)], []⟩ := by
    rw [processEdgeB, processEdge, if_neg (by decide)]
  have he4 : processEdgeB 0 1 1 [0, -1, 1, 1, -1, 1, 1, 1] 0 0 0
      ⟨[⟨0, 0, 0⟩, ⟨1, 1/2, 0⟩], [(0, 0), (17, 1)], []⟩ 4 =
      ⟨[⟨0, 0, 0⟩, ⟨1, 1/2, 0⟩, ⟨1/2, 0, 1⟩], [(0, 0), (17, 1), (64, 2)], []⟩ := by
    rw [processEdgeB, processEdge, if_pos (by decide)]
    norm_num [edgeAnchor, edgeAxis, edgeKey, edgeConnections, vertexOffsets, findA,
      interpolateVertex, interpEps, cornerPos, cubeCorner, sampleField, clampN]
  have he5 : processEdgeB 0 1 1 [0, -1, 1, 1, -1, 1, 1, 1] 0 0 0
      ⟨[⟨0, 0, 0⟩, ⟨1, 1/2, 0⟩, ⟨1/2, 0, 1⟩], [(0, 0), (17, 1), (64, 2)], []⟩ 5 =
      ⟨[⟨0, 0, 0⟩, ⟨1, 1/2, 0⟩, ⟨1/2, 0, 1⟩], [(0, 0), (17, 1), (64, 2)], []⟩ := by
    rw [processEdgeB, processEdge, if_neg (by decide)]
  have he6 : processEdgeB 0 1 1 [0, -1, 1, 1, -1, 1, 1, 1] 0 0 0
      ⟨[⟨0, 0, 0⟩, ⟨1, 1/2, 0⟩, ⟨1/2, 0, 1⟩], [(0, 0), (17, 1), (64, 2)], []⟩ 6 =
      ⟨[⟨0, 0, 0⟩, ⟨1, 1/2, 0⟩, ⟨1/2, 0, 1⟩], [(0, 0), (17, 1), (64, 2)], []⟩ := by
    rw [processEdgeB, processEdge, if_neg (by decide)]
  have he7 : processEdgeB 0 1 1 [0, -1, 1, 1, -1, 1, 1, 1] 0 0 0
      ⟨[⟨0, 0, 0⟩, ⟨1, 1/2, 0⟩, ⟨1/2, 0, 1⟩], [(0, 0), (17, 1), (64, 2)], []⟩ 7 =
      ⟨[⟨0, 0, 0⟩, ⟨1, 1/2, 0⟩, ⟨1/2, 0, 1⟩, ⟨0, 1/2, 1⟩],
        [(0, 0), (17, 1), (64, 2), (65, 3)], []⟩ := by
    rw [processEdgeB, processEdge, if_pos (by decide)]
    norm_num [edgeAnchor, edgeAxis, edgeKey, edgeConnections, vertexOffsets, findA,
      interpolateVertex, interpEps, cornerPos, cubeCorner, sampleField, clampN]
  have he8 : processEdgeB 0 1 1 [0, -1, 1, 1, -1, 1, 1, 1] 0 0 0
      ⟨[⟨0, 0, 0⟩, ⟨1, 1/2, 0⟩, ⟨1/2, 0, 1⟩, ⟨0, 1/2, 1⟩],
        [(0, 0), (17, 1), (64, 2), (65, 3)], []⟩ 8 =
      ⟨[⟨0, 0, 0⟩, ⟨1, 1/2, 0⟩, ⟨1/2, 0, 1⟩, ⟨0, 1/2, 1⟩, ⟨0, 0, 0⟩],
        [(0, 0), (17, 1), (64, 2), (65, 3), (2, 4)], []⟩ := by
    rw [processEdgeB, processEdge, if_pos (by decide)]
    norm_num [edgeAnchor, edgeAxis, edgeKey, edgeConnections, vertexOffsets, findA,
      interpolateVertex, interpEps, cornerPos, cubeCorner, sampleField, clampN]
  have he9 : processEdgeB 0 1 1 [0, -1, 1, 1, -1, 1, 1, 1] 0 0 0
      ⟨[⟨0, 0, 0⟩, ⟨1, 1/2, 0⟩, ⟨1/2, 0, 1⟩, ⟨0, 1/2, 1⟩, ⟨0, 0, 0⟩],
        [(0, 0), (17, 1), (64, 2), (65, 3), (2, 4)], []⟩ 9 =
      ⟨[⟨0, 0, 0⟩, ⟨1, 1/2, 0⟩, ⟨1/2, 0, 1⟩, ⟨0, 1/2, 1⟩, ⟨0, 0, 0⟩, ⟨1, 0, 1/2⟩],
        [(0, 0), (17, 1), (64, 2), (65, 3), (2, 4), (18, 5)], []⟩ := by
    rw [processEdgeB, processEdge, if_pos (by decide)]
    norm_num [edgeAnchor, edgeAxis, edgeKey, edgeConnections, vertexOffsets, findA,
      interpolateVertex, interpEps, cornerPos, cubeCorner, sampleField, clampN]
  have he10 : processEdgeB 0 1 1 [0, -1, 1, 1, -1, 1, 1, 1] 0 0 0
      ⟨[⟨0, 0, 0⟩, ⟨1, 1/2, 0⟩, ⟨1/2, 0, 1⟩, ⟨0, 1/2, 1⟩, ⟨0, 0, 0⟩, ⟨1, 0, 1/2⟩],
        [(0, 0), (17, 1), (64, 2), (65, 3), (2, 4), (18, 5)], []⟩ 10 =
      ⟨[⟨0, 0, 0⟩, ⟨1, 1/2, 0⟩, ⟨1/2, 0, 1⟩, ⟨0, 1/2, 1⟩, ⟨0, 0, 0⟩, ⟨1, 0, 1/2⟩],
        [(0, 0), (17, 1), (64, 2), (65, 3), (2, 4), (18, 5)], []⟩ := by
    rw [processEdgeB, processEdge, if_neg (by decide)]
  have he11 : processEdgeB 0 1 1 [0, -1, 1, 1, -1, 1, 1, 1] 0 0 0
      ⟨[⟨0, 0, 0⟩, ⟨1, 1/2, 0⟩, ⟨1/2, 0, 1⟩, ⟨0, 1/2, 1⟩, ⟨0, 0, 0⟩, ⟨1, 0, 1/2⟩],
        [(0, 0), (17, 1), (64, 2), (65, 3), (2, 4), (18, 5)], []⟩ 11 =
      ⟨[⟨0, 0, 0⟩, ⟨1, 1/2, 0⟩, ⟨1/2, 0, 1⟩, ⟨0, 1/2, 1⟩, ⟨0, 0, 0⟩, ⟨1, 0, 1/2⟩],
        [(0, 0), (17, 1), (64, 2), (65, 3), (2, 4), (18, 5)], []⟩ := by
    rw [processEdgeB, processEdge, if_neg (by decide)]
  rw [he0, he1, he2, he3, he4, he5, he6, he7, he8, he9, he10, he11]

theorem keys_functional : ∀ {l : List (ℕ × ℕ)}, (l.map Prod.fst).Nodup →
    ∀ {k i j : ℕ}, (k, i) ∈ l → (k, j) ∈ l → i = j := by
  intro l
  induction l with
  | nil => intro _ k i j hi; simp at hi
  | cons p rest ih =>
    intro h k i j hi hj
    rw [List.map_cons, List.nodup_cons] at h
    rcases p with ⟨k0, v0⟩
    rcases List.mem_cons.mp hi with hi1 | hi2 <;> rcases List.mem_cons.mp hj with hj1 | hj2
    · obtain ⟨_, rfl⟩ := Prod.mk.injEq .. ▸ hi1
      obtain ⟨_, h2⟩ := Prod.mk.injEq .. ▸ hj1
      exact h2.symm ▸ rfl
    · obtain ⟨rfl, rfl⟩ := Prod.mk.injEq .. ▸ hi1
      exact absurd (List.mem_map_of_mem Prod.fst hj2) h.1
    · obtain ⟨rfl, rfl⟩ := Prod.mk.injEq .. ▸ hj1
      exact absurd (List.mem_map_of_mem Prod.fst hi2) h.1
    · exact ih h.2 hi2 hj2

theorem findA_none_keys {k : ℕ} : ∀ {l : List (ℕ × ℕ)}, findA k l = none →
    k ∉ l.map Prod.fst := by
  intro l
  induction l with
  | nil => intro _ h; simp at h
  | cons p rest ih =>
    intro h hm
    rcases p with ⟨k0, v0⟩
    rw [findA] at h
    by_cases he : k0 = k
    · rw [if_pos he] at h; exact Option.noConfusion h
    · rw [if_neg he] at h
      rcases List.mem_cons.mp hm with h1 | h2
      · exact he h1.symm
      · exact ih h h2

theorem getD_append_length {α : Type} (d : α) :
    ∀ (l : List α) (a : α), (l ++ [a]).getD l.length d = a := by
  intro l a
  induction l with
  | nil => rfl
  | cons b t ih => simpa using ih

theorem interp_t_bounds {thr V1 V2 : ℚ}
    (h1 : interpEps ≤ |thr - V1|) (h2 : interpEps ≤ |thr - V2|)
    (hact : ¬(V1 < thr ↔ V2 < thr)) :
    (0 < (thr - V1) / (V2 - V1) ∧ (thr - V1) / (V2 - V1) < 1) ∧
      interpEps ≤ |V1 - V2| := by
  have heps : (0:ℚ) < interpEps := by norm_num [interpEps]
  by_cases hc : V1 < thr
  · have hc2 : ¬ V2 < thr := fun h => hact ⟨fun _ => h, fun _ => hc⟩
    push_neg at hc2
    have hA : interpEps ≤ thr - V1 := by rwa [abs_of_pos (by linarith)] at h1
    have hB : interpEps ≤ V2 - thr := by
      rw [abs_of_nonpos (by linarith)] at h2; linarith
    have hD : (0:ℚ) < V2 - V1 := by linarith
    refine ⟨⟨div_pos (by linarith) hD, ?_⟩, ?_⟩
    · rw [div_lt_one hD]; linarith
    · rw [abs_of_nonpos (by linarith)]; linarith
  · have hc2 : V2 < thr := by
      by_contra hcon
      exact hact ⟨fun h => absurd h hc, fun h => absurd h hcon⟩
    push_neg at hc
    have hA : interpEps ≤ V1 - thr := by
      rw [abs_of_nonpos (by linarith)] at h1; linarith
    have hB : interpEps ≤ thr - V2 := by rwa [abs_of_pos (by linarith)] at h2
    have hD : (0:ℚ) < V1 - V2 := by linarith
    have hrw : (thr - V1) / (V2 - V1) = (V1 - thr) / (V1 - V2) := by
      rw [show V2 - V1 = -(V1 - V2) by ring, show thr - V1 = -(V1 - thr) by ring,
        neg_div_neg_eq]
    refine ⟨⟨?_, ?_⟩, ?_⟩
    · rw [hrw]; exact div_pos (by linarith) hD
    · rw [hrw, div_lt_one hD]; linarith
    · rw [abs_of_pos (by linarith)]; linarith

def InteriorPos (voxel : ℚ) (g : ℕ × ℕ × ℕ) (axis : ℕ) (p : Vec3) : Prop :=
  if axis = 0 then
    ((g.1 : ℚ) * voxel < p.x ∧ p.x < ((g.1 : ℚ) + 1) * voxel) ∧
      p.y = (g.2.1 : ℚ) * voxel ∧ p.z = (g.2.2 : ℚ) * voxel
  else if axis = 1 then
    p.x = (g.1 : ℚ) * voxel ∧
      ((g.2.1 : ℚ) * voxel < p.y ∧ p.y < ((g.2.1 : ℚ) + 1) * voxel) ∧
      p.z = (g.2.2 : ℚ) * voxel
  else
    p.x = (g.1 : ℚ) * voxel ∧ p.y = (g.2.1 : ℚ) * voxel ∧
      ((g.2.2 : ℚ) * voxel < p.z ∧ p.z < ((g.2.2 : ℚ) + 1) * voxel)

theorem cast_mul_lt {a b : ℕ} {v : ℚ} (hv : 0 < v) (h : (a:ℚ) * v < (b:ℚ) * v) :
    a < b := by
  have h2 : (a:ℚ) < (b:ℚ) := (mul_lt_mul_right hv).mp h
  exact_mod_cast h2

theorem cast_mul_lt_succ {a b : ℕ} {v : ℚ} (hv : 0 < v)
    (h : (a:ℚ) * v < ((b:ℚ) + 1) * v) : a < b + 1 := by
  have h2 : (a:ℚ) < (b:ℚ) + 1 := (mul_lt_mul_right hv).mp h
  exact_mod_cast h2

theorem cast_mul_inj {a b : ℕ} {v : ℚ} (hv : 0 < v) (h : (a:ℚ) * v = (b:ℚ) * v) :
    a = b := by
  have h2 : (a:ℚ) = (b:ℚ) := mul_right_cancel₀ (ne_of_gt hv) h
  exact_mod_cast h2

theorem interiorPos_inj {voxel : ℚ} (hv : 0 < voxel) {g g' : ℕ × ℕ × ℕ}
    {axis axis' : ℕ} (ha : axis < 3) (ha' : axis' < 3) {p : Vec3}
    (h : InteriorPos voxel g axis p) (h' : InteriorPos voxel g' axis' p) :
    g = g' ∧ axis = axis' := by
  interval_cases axis <;> interval_cases axis' <;> simp only [InteriorPos] at h h' <;>
    norm_num at h h'
  · obtain ⟨⟨hl, hr⟩, hy, hz⟩ := h
    obtain ⟨⟨hl', hr'⟩, hy', hz'⟩ := h'
    refine ⟨?_, rfl⟩
    have h1 : g.1 < g'.1 + 1 := cast_mul_lt_succ hv (hl.trans hr')
    have h2 : g'.1 < g.1 + 1 := cast_mul_lt_succ hv (hl'.trans hr)
    exact Prod.ext (by omega) (Prod.ext (cast_mul_inj hv (hy.symm.trans hy'))
      (cast_mul_inj hv (hz.symm.trans hz')))
  · obtain ⟨⟨hl, hr⟩, hy, hz⟩ := h
    obtain ⟨hx', ⟨hl', hr'⟩, hz'⟩ := h'
    exfalso
    rw [hy] at hl' hr'
    have := cast_mul_lt hv hl'
    have := cast_mul_lt_succ hv hr'
    omega
  · obtain ⟨⟨hl, hr⟩, hy, hz⟩ := h
    obtain ⟨hx', hy', hl', hr'⟩ := h'
    exfalso
    rw [hz] at hl' hr'
    have := cast_mul_lt hv hl'
    have := cast_mul_lt_succ hv hr'
    omega
  · obtain ⟨hx, ⟨hl, hr⟩, hz⟩ := h
    obtain ⟨⟨hl', hr'⟩, hy', hz'⟩ := h'
    exfalso
    rw [hx] at hl' hr'
    have := cast_mul_lt hv hl'
    have := cast_mul_lt_succ hv hr'
    omega
  · obtain ⟨hx, ⟨hl, hr⟩, hz⟩ := h
    obtain ⟨hx', ⟨hl', hr'⟩, hz'⟩ := h'
    refine ⟨?_, rfl⟩
    have h1 : g.2.1 < g'.2.1 + 1 := cast_mul_lt_succ hv (hl.trans hr')
    have h2 : g'.2.1 < g.2.1 + 1 := cast_mul_lt_succ hv (hl'.trans hr)
    exact Prod.ext (cast_mul_inj hv (hx.symm.trans hx'))
      (Prod.ext (by omega) (cast_mul_inj hv (hz.symm.trans hz')))
  · obtain ⟨hx, ⟨hl, hr⟩, hz⟩ := h
    obtain ⟨hx', hy', hl', hr'⟩ := h'
    exfalso
    rw [hz] at hl' hr'
    have := cast_mul_lt hv hl'
    have := cast_mul_lt_succ hv hr'
    omega
  · obtain ⟨hx, hy, hl, hr⟩ := h
    obtain ⟨⟨hl', hr'⟩, hy', hz'⟩ := h'
    exfalso
    rw [hx] at hl' hr'
    have := cast_mul_lt hv hl'
    have := cast_mul_lt_succ hv hr'
    omega
  · obtain ⟨hx, hy, hl, hr⟩ := h
    obtain ⟨hx', ⟨hl', hr'⟩, hz'⟩ := h'
    exfalso
    rw [hy] at hl' hr'
    have := cast_mul_lt hv hl'
    have := cast_mul_lt_succ hv hr'
    omega
  · obtain ⟨hx, hy, hl, hr⟩ := h
    obtain ⟨hx', hy', hl', hr'⟩ := h'
    refine ⟨?_, rfl⟩
    have h1 : g.2.2 < g'.2.2 + 1 := cast_mul_lt_succ hv (hl.trans hr')
    have h2 : g'.2.2 < g.2.2 + 1 := cast_mul_lt_succ hv (hl'.trans hr)
    exact Prod.ext (cast_mul_inj hv (hx.symm.trans hx'))
      (Prod.ext (cast_mul_inj hv (hy.symm.trans hy')) (by omega))

theorem base_peel {S A A' x x' : ℕ} (hx : x < S) (hx' : x' < S)
    (h : A * S + x = A' * S + x') : A = A' ∧ x = x' := by
  have hS : 0 < S := lt_of_le_of_lt (Nat.zero_le x) hx
  have h2 : x + S * A = x' + S * A' := by
    calc x + S * A = A * S + x := by ring
    _ = A' * S + x' := h
    _ = x' + S * A' := by ring
  have hd := congrArg (· / S) h2
  dsimp only at hd
  rw [Nat.add_mul_div_left _ _ hS, Nat.add_mul_div_left _ _ hS,
    Nat.div_eq_of_lt hx, Nat.div_eq_of_lt hx'] at hd
  have hm := congrArg (· % S) h2
  dsimp only at hm
  rw [Nat.add_mul_mod_self_left, Nat.add_mul_mod_self_left,
    Nat.mod_eq_of_lt hx, Nat.mod_eq_of_lt hx'] at hm
  exact ⟨by omega, hm⟩

theorem edgeKey_inj {S gx gy gz axis gx' gy' gz' axis' : ℕ}
    (hx : gx < S) (hy : gy < S) (hz : gz < S) (ha : axis < 16)
    (hx' : gx' < S) (hy' : gy' < S) (hz' : gz' < S) (ha' : axis' < 16)
    (h : edgeKey gx gy gz axis S = edgeKey gx' gy' gz' axis' S) :
    gx = gx' ∧ gy = gy' ∧ gz = gz' ∧ axis = axis' := by
  rw [edgeKey, edgeKey] at h
  obtain ⟨h1, h4⟩ := base_peel ha ha' h
  obtain ⟨h2, h3⟩ := base_peel hx hx' h1
  obtain ⟨h5, h6⟩ := base_peel hy hy' h2
  exact ⟨h3, h6, h5, h4⟩

theorem sampleField_mem {field : List ℚ} {N : ℕ} (hlen : field.length = (N+1)^3)
    (x y z : ℕ) : sampleField field N x y z ∈ field := by
  rw [sampleField]
  have hidx : clampN N x + clampN N y * (N + 1) + clampN N z * (N + 1) * (N + 1) <
      field.length := by
    rw [hlen]
    have h1 : clampN N x ≤ N := min_le_right _ _
    have h2 : clampN N y * (N+1) ≤ N * (N+1) :=
      Nat.mul_le_mul_right _ (min_le_right _ _)
    have h3 : clampN N z * (N+1) * (N+1) ≤ N * (N+1) * (N+1) :=
      Nat.mul_le_mul_right _ (Nat.mul_le_mul_right _ (min_le_right _ _))
    have he : N + N * (N+1) + N * (N+1) * (N+1) + 1 = (N+1)^3 := by ring
    omega
  rw [List.getD_eq_getElem _ _ hidx]
  exact List.getElem_mem _

set_option maxHeartbeats 1600000 in
theorem interp_interior {voxel : ℚ} (hv : 0 < voxel) {thr V1 V2 : ℚ} (x y z : ℕ)
    {i : ℕ} (hi : i < 12)
    (h1 : interpEps ≤ |thr - V1|) (h2 : interpEps ≤ |thr - V2|)
    (hact : ¬(V1 < thr ↔ V2 < thr)) :
    InteriorPos voxel (edgeAnchor x y z i) (edgeAxis i)
      (interpolateVertex thr (cornerPos voxel x y z (edgeConnections i).1)
        (cornerPos voxel x y z (edgeConnections i).2) V1 V2) := by
  obtain ⟨⟨hT0, hT1⟩, hV⟩ := interp_t_bounds h1 h2 hact
  rw [interpolateVertex, if_neg (not_lt.mpr h1), if_neg (not_lt.mpr h2),
    if_neg (not_lt.mpr hV)]
  have hTv0 : 0 < ((thr - V1) / (V2 - V1)) * voxel := mul_pos hT0 hv
  have hTv1 : ((thr - V1) / (V2 - V1)) * voxel < voxel := by
    have h := mul_lt_mul_of_pos_right hT1 hv
    rwa [one_mul] at h
  interval_cases i
  all_goals simp [edgeConnections, vertexOffsets, edgeAnchor, edgeAxis, cornerPos,
    InteriorPos]
  all_goals push_cast
  all_goals repeat' apply And.intro
  all_goals linarith [hTv0, hTv1]

def CacheEntryOK (N : ℕ) (voxel : ℚ) (key : ℕ) (pos : Vec3) : Prop :=
  ∃ g : ℕ × ℕ × ℕ, ∃ axis : ℕ, axis < 3 ∧ g.1 < N + 1 ∧ g.2.1 < N + 1 ∧
    g.2.2 < N + 1 ∧ key = edgeKey g.1 g.2.1 g.2.2 axis (N + 1) ∧
    InteriorPos voxel g axis pos

def BuildInv (N : ℕ) (voxel : ℚ) (st : BuildState) : Prop :=
  (st.cache.map Prod.fst).Nodup ∧
  (∀ e ∈ st.cache, e.2 < st.verts.length ∧
    CacheEntryOK N voxel e.1 (st.verts.getD e.2 ⟨0, 0, 0⟩)) ∧
  (∀ j < st.verts.length, ∃ k, (k, j) ∈ st.cache)

theorem vertexOffsets_le (k : ℕ) :
    (vertexOffsets k).1 ≤ 1 ∧ (vertexOffsets k).2.1 ≤ 1 ∧
      (vertexOffsets k).2.2 ≤ 1 := by
  rcases k with _|_|_|_|_|_|_|_|k <;> simp [vertexOffsets]

theorem edgeAxis_lt (i : ℕ) : edgeAxis i < 3 := by
  rw [edgeAxis]
  split_ifs <;> norm_num

theorem edgeAnchor_lt {x y z N : ℕ} (hx : x < N) (hy : y < N) (hz : z < N)
    (i : ℕ) :
    (edgeAnchor x y z i).1 < N + 1 ∧ (edgeAnchor x y z i).2.1 < N + 1 ∧
      (edgeAnchor x y z i).2.2 < N + 1 := by
  obtain ⟨a1, a2, a3⟩ := vertexOffsets_le (edgeConnections i).1
  have m1 := min_le_left (vertexOffsets (edgeConnections i).1).1
    (vertexOffsets (edgeConnections i).2).1
  have m2 := min_le_left (vertexOffsets (edgeConnections i).1).2.1
    (vertexOffsets (edgeConnections i).2).2.1
  have m3 := min_le_left (vertexOffsets (edgeConnections i).1).2.2
    (vertexOffsets (edgeConnections i).2).2.2
  simp only [edgeAnchor]
  refine ⟨?_, ?_, ?_⟩ <;> omega

theorem buildInv_of_fields {N : ℕ} {voxel : ℚ} {s s' : BuildState}
    (h : BuildInv N voxel s) (hvv : s'.verts = s.verts) (hcc : s'.cache = s.cache) :
    BuildInv N voxel s' := by
  rw [BuildInv, hvv, hcc]
  exact h

theorem processEdgeB_inv {thr voxel : ℚ} {N : ℕ} {field : List ℚ} (hv : 0 < voxel)
    (hlen : field.length = (N+1)^3) (hfar : ∀ q ∈ field, interpEps ≤ |thr - q|)
    {x y z : ℕ} (hx : x < N) (hy : y < N) (hz : z < N) {i : ℕ} (hi : i < 12)
    {b : BuildState} (hb : BuildInv N voxel b) :
    BuildInv N voxel (processEdgeB thr voxel N field x y z b i) := by
  rw [processEdgeB, processEdge]
  by_cases hcond : edgeActive (fun k => decide (cubeCorner field N x y z k < thr)) i = true
  swap
  · rw [if_neg hcond]; exact hb
  rw [if_pos hcond]
  rcases hfa : findA (edgeKey (edgeAnchor x y z i).1 (edgeAnchor x y z i).2.1
      (edgeAnchor x y z i).2.2 (edgeAxis i) (N + 1)) b.cache with _ | idx
  swap
  · simp only [hfa]
    exact hb
  simp only [hfa]
  have hact : ¬(cubeCorner field N x y z (edgeConnections i).1 < thr ↔
      cubeCorner field N x y z (edgeConnections i).2 < thr) := by
    rw [edgeActive] at hcond
    simp only [bne_iff_ne, ne_eq, decide_eq_decide] at hcond
    exact hcond
  have hfar1 : interpEps ≤ |thr - cubeCorner field N x y z (edgeConnections i).1| :=
    hfar _ (sampleField_mem hlen _ _ _)
  have hfar2 : interpEps ≤ |thr - cubeCorner field N x y z (edgeConnections i).2| :=
    hfar _ (sampleField_mem hlen _ _ _)
  have hkeynew := findA_none_keys hfa
  obtain ⟨hin1, hin2, hin3⟩ := hb
  refine ⟨?_, ?_, ?_⟩
  · simp only [List.map_append, List.map_cons, List.map_nil]
    refine List.Nodup.append hin1 (List.nodup_singleton _) ?_
    intro a ha hmem
    rcases List.mem_singleton.mp hmem with rfl
    exact hkeynew ha
  · intro e he
    rcases List.mem_append.mp he with hold | hnew
    · obtain ⟨hlt, hok⟩ := hin2 e hold
      refine ⟨by simp; omega, ?_⟩
      rwa [List.getD_append _ _ _ _ hlt]
    · rcases List.mem_singleton.mp hnew with rfl
      refine ⟨by simp, ?_⟩
      rw [getD_append_length]
      obtain ⟨b1, b2, b3⟩ := edgeAnchor_lt hx hy hz i
      exact ⟨edgeAnchor x y z i, edgeAxis i, edgeAxis_lt i, b1, b2, b3, rfl,
        interp_interior hv x y z hi hfar1 hfar2 hact⟩
  · intro j hj
    rw [List.length_append, List.length_singleton] at hj
    rcases Nat.lt_succ_iff_lt_or_eq.mp hj with hlt | rfl
    · obtain ⟨k, hk⟩ := hin3 j hlt
      exact ⟨k, List.mem_append_left _ hk⟩
    · exact ⟨_, List.mem_append_right _ (List.mem_singleton_self _)⟩

theorem edgeFoldB_inv {thr voxel : ℚ} {N : ℕ} {field : List ℚ} (hv : 0 < voxel)
    (hlen : field.length = (N+1)^3) (hfar : ∀ q ∈ field, interpEps ≤ |thr - q|)
    {x y z : ℕ} (hx : x < N) (hy : y < N) (hz : z < N) :
    ∀ (l : List ℕ), (∀ j ∈ l, j < 12) → ∀ (b : BuildState), BuildInv N voxel b →
      BuildInv N voxel (l.foldl (processEdgeB thr voxel N field x y z) b) := by
  intro l
  induction l with
  | nil => intro _ b hb; exact hb
  | cons i rest ih =>
    intro hmem b hb
    rw [List.foldl_cons]
    exact ih (fun j hj => hmem j (List.mem_cons_of_mem _ hj)) _
      (processEdgeB_inv hv hlen hfar hx hy hz (hmem i (List.mem_cons_self _ _)) hb)

theorem processCube_inv {thr voxel : ℚ} {tt : ℕ → List ℕ} {N : ℕ} {field : List ℚ}
    (hv : 0 < voxel) (hlen : field.length = (N+1)^3)
    (hfar : ∀ q ∈ field, interpEps ≤ |thr - q|) {cube : ℕ × ℕ × ℕ}
    (hx : cube.1 < N) (hy : cube.2.1 < N) (hz : cube.2.2 < N)
    {st : BuildState} (hst : BuildInv N voxel st) :
    BuildInv N voxel (processCube thr voxel tt N field st cube) := by
  rw [processCube]
  by_cases hskip : (List.range 12).all
      (fun i => !(edgeActive (fun k =>
        decide (cubeCorner field N cube.1 cube.2.1 cube.2.2 k < thr)) i)) = true
  · rw [if_pos hskip]; exact hst
  · rw [if_neg hskip]
    have hr := edgeFold_fst thr voxel N field cube.1 cube.2.1 cube.2.2
      (List.range 12) st (fun _ => 0)
    refine buildInv_of_fields (edgeFoldB_inv hv hlen hfar hx hy hz (List.range 12)
      (fun j hj => List.mem_range.mp hj) st hst) ?_ ?_ <;> simp [hr]

theorem cubeList_mem {N : ℕ} {c : ℕ × ℕ × ℕ} (h : c ∈ cubeList N) :
    c.1 < N ∧ c.2.1 < N ∧ c.2.2 < N := by
  simp only [cubeList, List.mem_flatMap, List.mem_map, List.mem_range] at h
  obtain ⟨z, hz, y, hy, x, hx, rfl⟩ := h
  exact ⟨hx, hy, hz⟩

theorem cubeFold_inv {thr voxel : ℚ} {tt : ℕ → List ℕ} {N : ℕ} {field : List ℚ}
    (hv : 0 < voxel) (hlen : field.length = (N+1)^3)
    (hfar : ∀ q ∈ field, interpEps ≤ |thr - q|) :
    ∀ (l : List (ℕ × ℕ × ℕ)), (∀ c ∈ l, c ∈ cubeList N) →
      ∀ (st : BuildState), BuildInv N voxel st →
        BuildInv N voxel (l.foldl (processCube thr voxel tt N field) st) := by
  intro l
  induction l with
  | nil => intro _ st hst; exact hst
  | cons c rest ih =>
    intro hmem st hst
    rw [List.foldl_cons]
    obtain ⟨hx, hy, hz⟩ := cubeList_mem (hmem c (List.mem_cons_self _ _))
    exact ih (fun d hd => hmem d (List.mem_cons_of_mem _ hd)) _
      (processCube_inv hv hlen hfar hx hy hz hst)

theorem buildInv_nodup {N : ℕ} {voxel : ℚ} {st : BuildState} (hv : 0 < voxel)
    (h : BuildInv N voxel st) : st.verts.Nodup := by
  rw [List.nodup_iff_injective_get]
  rintro ⟨i, hi⟩ ⟨j, hj⟩ hij
  obtain ⟨hkeys, hentries, hcover⟩ := h
  obtain ⟨ki, hki⟩ := hcover i hi
  obtain ⟨kj, hkj⟩ := hcover j hj
  obtain ⟨_, gi, axi, hai3, hgi1, hgi2, hgi3, hkeyi, hposi⟩ := hentries _ hki
  obtain ⟨_, gj, axj, haj3, hgj1, hgj2, hgj3, hkeyj, hposj⟩ := hentries _ hkj
  have hget : st.verts.getD i ⟨0, 0, 0⟩ = st.verts.getD j ⟨0, 0, 0⟩ := by
    rw [List.getD_eq_getElem _ _ hi, List.getD_eq_getElem _ _ hj]
    simpa [List.get_eq_getElem] using hij
  rw [hget] at hposi
  obtain ⟨hg, hax⟩ := interiorPos_inj hv hai3 haj3 hposi hposj
  have hkey : ki = kj := by
    have h1 : ki = edgeKey gi.1 gi.2.1 gi.2.2 axi (N + 1) := hkeyi
    have h2 : kj = edgeKey gj.1 gj.2.1 gj.2.2 axj (N + 1) := hkeyj
    rw [h1, h2, hg, hax]
  rw [hkey] at hki
  exact Fin.ext (keys_functional hkeys hki hkj)

theorem buildInv_init {N : ℕ} {voxel : ℚ} : BuildInv N voxel ⟨[], [], []⟩ := by
  refine ⟨List.nodup_nil, ?_, ?_⟩
  · intro e he; simp at he
  · intro j hj; simp at hj

theorem processEdgeB_vc {thr voxel : ℚ} {N : ℕ} {field : List ℚ} {x y z : ℕ}
    {b b' : BuildState} (hvv : b.verts = b'.verts) (hcc : b.cache = b'.cache)
    (i : ℕ) :
    (processEdgeB thr voxel N field x y z b i).verts =
      (processEdgeB thr voxel N field x y z b' i).verts ∧
    (processEdgeB thr voxel N field x y z b i).cache =
      (processEdgeB thr voxel N field x y z b' i).cache := by
  rw [processEdgeB, processEdge, processEdgeB, processEdge]
  by_cases hcond : edgeActive (fun k => decide (cubeCorner field N x y z k < thr)) i = true
  swap
  · rw [if_neg hcond, if_neg hcond]; exact ⟨hvv, hcc⟩
  rw [if_pos hcond, if_pos hcond]
  rcases hfa : findA (edgeKey (edgeAnchor x y z i).1 (edgeAnchor x y z i).2.1
      (edgeAnchor x y z i).2.2 (edgeAxis i) (N + 1)) b.cache with _ | idx
  · have hfa' : findA (edgeKey (edgeAnchor x y z i).1 (edgeAnchor x y z i).2.1
        (edgeAnchor x y z i).2.2 (edgeAxis i) (N + 1)) b'.cache = none := by
      rw [← hcc]; exact hfa
    simp only [hfa, hfa']
    exact ⟨by simp [hvv], by simp [hcc, hvv]⟩
  · have hfa' : findA (edgeKey (edgeAnchor x y z i).1 (edgeAnchor x y z i).2.1
        (edgeAnchor x y z i).2.2 (edgeAxis i) (N + 1)) b'.cache = some idx := by
      rw [← hcc]; exact hfa
    simp only [hfa, hfa']
    exact ⟨hvv, hcc⟩

theorem edgeFoldB_vc {thr voxel : ℚ} {N : ℕ} {field : List ℚ} {x y z : ℕ} :
    ∀ (l : List ℕ) {b b' : BuildState}, b.verts = b'.verts → b.cache = b'.cache →
      (l.foldl (processEdgeB thr voxel N field x y z) b).verts =
        (l.foldl (processEdgeB thr voxel N field x y z) b').verts ∧
      (l.foldl (processEdgeB thr voxel N field x y z) b).cache =
        (l.foldl (processEdgeB thr voxel N field x y z) b').cache := by
  intro l
  induction l with
  | nil => intro b b' hvv hcc; exact ⟨hvv, hcc⟩
  | cons i rest ih =>
    intro b b' hvv hcc
    rw [List.foldl_cons, List.foldl_cons]
    obtain ⟨h1, h2⟩ := processEdgeB_vc hvv hcc i
    exact ih h1 h2

theorem processCube_vc {thr voxel : ℚ} {N : ℕ} {field : List ℚ}
    (tt tt' : ℕ → List ℕ) {st st' : BuildState}
    (hvv : st.verts = st'.verts) (hcc : st.cache = st'.cache) (cube : ℕ × ℕ × ℕ) :
    (processCube thr voxel tt N field st cube).verts =
      (processCube thr voxel tt' N field st' cube).verts ∧
    (processCube thr voxel tt N field st cube).cache =
      (processCube thr voxel tt' N field st' cube).cache := by
  rw [processCube, processCube]
  by_cases hskip : (List.range 12).all
      (fun i => !(edgeActive (fun k =>
        decide (cubeCorner field N cube.1 cube.2.1 cube.2.2 k < thr)) i)) = true
  · rw [if_pos hskip, if_pos hskip]; exact ⟨hvv, hcc⟩
  · rw [if_neg hskip, if_neg hskip]
    have h1 := edgeFold_fst thr voxel N field cube.1 cube.2.1 cube.2.2
      (List.range 12) st (fun _ => 0)
    have h2 := edgeFold_fst thr voxel N field cube.1 cube.2.1 cube.2.2
      (List.range 12) st' (fun _ => 0)
    obtain ⟨h3, h4⟩ := @edgeFoldB_vc thr voxel N field cube.1 cube.2.1 cube.2.2
      (List.range 12) st st' hvv hcc
    constructor <;> simp [h1, h2, h3, h4]

theorem buildCached_verts_tt_independent (tt tt' : ℕ → List ℕ) (N : ℕ)
    (field : List ℚ) (thr voxel : ℚ) :
    (buildMeshFromDensityFieldCached tt N field thr voxel).1 =
      (buildMeshFromDensityFieldCached tt' N field thr voxel).1 := by
  rw [buildMeshFromDensityFieldCached, buildMeshFromDensityFieldCached]
  have hfold : ∀ (l : List (ℕ × ℕ × ℕ)) (st st' : BuildState),
      st.verts = st'.verts → st.cache = st'.cache →
      (l.foldl (processCube thr voxel tt N field) st).verts =
        (l.foldl (processCube thr voxel tt' N field) st').verts ∧
      (l.foldl (processCube thr voxel tt N field) st).cache =
        (l.foldl (processCube thr voxel tt' N field) st').cache := by
    intro l
    induction l with
    | nil => intro st st' hvv hcc; exact ⟨hvv, hcc⟩
    | cons c rest ih =>
      intro st st' hvv hcc
      rw [List.foldl_cons, List.foldl_cons]
      obtain ⟨h1, h2⟩ := processCube_vc tt tt' hvv hcc c
      exact ih _ _ h1 h2
  exact (hfold (cubeList N) ⟨[], [], []⟩ ⟨[], [], []⟩ rfl rfl).1

/-- C5 counterexample: the cached extractor does not always produce a perfect weld.
With the density field `[0, -1, 1, 1, -1, 1, 1, 1]` on a single-cube chunk (threshold 0,
voxel size 1), corner 0's density equals the threshold, so the interpolation's
snap-to-corner guard makes two different cached edges (edge 0 and edge 8 of the cube,
distinct cache keys) both emit the position (0,0,0): the output vertex list contains the
same position at two distinct indices.  The triangulation table only affects the
triangle list, not the vertices (`buildCached_verts_tt_independent`). -/
theorem cachedExtractor_duplicate_positions :
    ¬ (buildMeshFromDensityFieldCached (fun _ => []) 1
        [0, -1, 1, 1, -1, 1, 1, 1] 0 1).1.Nodup := by
  rw [buildCached_threshold_corner_eval]
  intro hn
  exact (List.nodup_cons.mp hn).1 (by simp)

/-- C5 (amended): for every triangulation table, positive voxel size, and density field of
the right size whose samples all lie at least the interpolation tolerance 1e-5 away from
the threshold, the cached extractor's vertex output is duplicate-free: every produced
vertex lies strictly inside its cache edge, distinct cache keys give disjoint edge
interiors, and the edge-key cache never stores one key twice — so the edge-keyed cache
produces the same vertex count as a perfect weld of exactly-coincident crossing points.
The unamended claim (for every density field) is refuted by
`cachedExtractor_duplicate_positions`. -/
theorem buildCached_far_from_threshold_nodup (tt : ℕ → List ℕ) (N : ℕ)
    (field : List ℚ) (thr voxel : ℚ) (hv : 0 < voxel)
    (hlen : field.length = (N+1)^3)
    (hfar : ∀ q ∈ field, interpEps ≤ |thr - q|) :
    (buildMeshFromDensityFieldCached tt N field thr voxel).1.Nodup := by
  rw [buildMeshFromDensityFieldCached]
  exact buildInv_nodup hv (cubeFold_inv hv hlen hfar (cubeList N) (fun c hc => hc)
    ⟨[], [], []⟩ buildInv_init)

theorem buildCached_far_from_threshold_nodup_witness :
    (buildMeshFromDensityFieldCached (fun _ => []) 1
      [-1, 1, 1, 1, 1, 1, 1, 1] 0 1).1.Nodup :=
  buildCached_far_from_threshold_nodup (fun _ => []) 1 [-1, 1, 1, 1, 1, 1, 1, 1] 0 1
    (by norm_num) (by norm_num)
    (by
      intro q hq
      simp at hq
      rcases hq with rfl | rfl <;> norm_num [interpEps])

end Cavern
